import Mathlib

attribute [local semireducible] Rat.add Rat.mul Rat.sub

/-!
# Verification of the germ-tank simulator

Shallow embedding of the three Python source files of the repository
(`germ_brain.py`, `germ_tank.py`, `tank_runner.py`) and proofs of the
frozen claims about them.

Modelling conventions:
* Python integers are `Int`; `int(a / b)` (true division then truncation
  toward zero) is `Int.tdiv`; Python `%` with a positive modulus is `Int.emod`
  (both agree with Python's semantics on those inputs).
* Python floats (energy, stamina, ... and the float constants of
  `germ_tank.py`) are modelled as exact rationals `ℚ`; `math.sqrt(2)` is kept
  as the exact value of the IEEE double Python computes.
* Python booleans are the integers 0/1 where they flow into arithmetic
  (`True == 1` in Python); truthiness of an int is `≠ 0`.
* Randomness (`random()`, `randrange`, `choice`) is made explicit: every
  random draw is a parameter, and theorems quantify over all draws.
* Exceptions are `Except`: `GermBrain.run` wraps any evaluator error into a
  diagnostic fault value (the `RuntimeError` of the source), which callers
  must propagate explicitly.
* The heterogeneous Python lists representing code are modelled by the
  inductive types `Expr` / `Cmd`; mark names `f'm{id}'` are carried as the
  numeric id.  Per the source's own representation constraint, special
  values never start with `'m'`, so mark names and symbols stay separate.
-/

/-! ## Constants of `germ_brain.py` -/

def MAX_EXECUTIONS : Nat := 10000
def MEMORY_SIZE : Nat := 100
def DIVIDE_BY_ZERO : Int := 1000000

/-! ## The expression / instruction data model -/

/-- Expressions of germ code: int literals, string special values, and the
operator forms of `resolve_value`. -/
inductive Expr where
  | lit (n : Int)
  | sym (s : String)
  | add (a b : Expr)
  | sub (a b : Expr)
  | mul (a b : Expr)
  | div (a b : Expr)
  | band (a b : Expr)
  | bor (a b : Expr)
  | bnot (a : Expr)
  | lt (a b : Expr)
  | gt (a b : Expr)
  | eq (a b : Expr)
  | ne (a b : Expr)
  | mem (i : Expr)
  | gix (i : Expr)
  | giy (i : Expr)
  | fix (i : Expr)
  | fiy (i : Expr)
deriving DecidableEq, Repr

/-- Commands of germ code (`'set'`, `'if'`, `'mrk'`, `'ax'`, `'ay'`, `'bst'`,
`'pwr'`, `'mv'`, `'bir'`, `'att'`, `'ret'`).  The mark argument of `cif` and
`mrk` is the numeric id of the Python string `f'm{id}'`. -/
inductive Cmd where
  | set (i v : Expr)
  | cif (c : Expr) (m : Nat)
  | mrk (m : Nat)
  | ax (e : Expr)
  | ay (e : Expr)
  | bst (e : Expr)
  | pwr (e : Expr)
  | mv
  | bir
  | att
  | ret
deriving DecidableEq, Repr

/-- The state dict passed to `GermBrain.run`: `energy`, `brightness`,
`stamina`, `pain` are Python floats (here `ℚ`), `success` a bool, and `view`
the two lists of relative coordinates (`dx`, `dy`) of visible germs/food. -/
structure GState where
  energy : ℚ
  brightness : ℚ
  stamina : ℚ
  pain : ℚ
  success : Bool
  viewGerms : List (Int × Int)
  viewFood : List (Int × Int)
deriving DecidableEq, Repr

/-- Python `int()` on a rational (truncation toward zero). -/
def ratTrunc (q : ℚ) : Int := q.num.tdiv q.den

/-- Errors `resolve_value` (and the command dispatcher) can raise:
an unknown special value (`KeyError`), register arithmetic on an empty
memory (`ZeroDivisionError`), and an unresolved mark (`KeyError`). -/
inductive GermErr where
  | unknownSymbol (s : String)
  | emptyMemory
  | markNotFound (m : Nat)
deriving DecidableEq, Repr

/-- `GermBrain.resolve_value`: determines the numerical value of an
expression against the state snapshot and the memory. -/
def resolve_value (gs : GState) (memv : List Int) : Expr → Except GermErr Int
  | .lit n => .ok n
  | .sym s =>
    -- `if expr in self.state.keys() and expr != 'view'` then `int(state[expr])`
    if s = "energy" then .ok (ratTrunc gs.energy)
    else if s = "brightness" then .ok (ratTrunc gs.brightness)
    else if s = "stamina" then .ok (ratTrunc gs.stamina)
    else if s = "pain" then .ok (ratTrunc gs.pain)
    else if s = "success" then .ok (if gs.success then 1 else 0)
    else .error (.unknownSymbol s)
  | .add a b => do
    let x ← resolve_value gs memv a
    let y ← resolve_value gs memv b
    .ok (x + y)
  | .sub a b => do
    let x ← resolve_value gs memv a
    let y ← resolve_value gs memv b
    .ok (x - y)
  | .mul a b => do
    let x ← resolve_value gs memv a
    let y ← resolve_value gs memv b
    .ok (x * y)
  | .div a b => do
    -- `int(x / y)` truncates toward zero; division by zero yields the sentinel
    let x ← resolve_value gs memv a
    let y ← resolve_value gs memv b
    if y = 0 then .ok DIVIDE_BY_ZERO else .ok (Int.tdiv x y)
  | .band a b => do
    -- Python `and`: returns the first falsy operand, else the second operand
    let x ← resolve_value gs memv a
    if x = 0 then .ok x else resolve_value gs memv b
  | .bor a b => do
    -- Python `or`: returns the first truthy operand, else the second operand
    let x ← resolve_value gs memv a
    if x ≠ 0 then .ok x else resolve_value gs memv b
  | .bnot a => do
    let x ← resolve_value gs memv a
    .ok (if x = 0 then 1 else 0)
  | .lt a b => do
    let x ← resolve_value gs memv a
    let y ← resolve_value gs memv b
    .ok (if x < y then 1 else 0)
  | .gt a b => do
    let x ← resolve_value gs memv a
    let y ← resolve_value gs memv b
    .ok (if x > y then 1 else 0)
  | .eq a b => do
    let x ← resolve_value gs memv a
    let y ← resolve_value gs memv b
    .ok (if x = y then 1 else 0)
  | .ne a b => do
    let x ← resolve_value gs memv a
    let y ← resolve_value gs memv b
    .ok (if x ≠ y then 1 else 0)
  | .mem i => do
    -- `register = resolve(i) % len(self.memory)`, then read the register
    let x ← resolve_value gs memv i
    if memv.length = 0 then .error .emptyMemory
    else .ok (memv.getD (x % (memv.length : Int)).toNat 0)
  | .gix i => do
    -- empty view list: `% 0` raises ZeroDivisionError, caught, returns 0
    let x ← resolve_value gs memv i
    if gs.viewGerms.length = 0 then .ok 0
    else .ok (gs.viewGerms.getD (x % (gs.viewGerms.length : Int)).toNat (0, 0)).1
  | .giy i => do
    let x ← resolve_value gs memv i
    if gs.viewGerms.length = 0 then .ok 0
    else .ok (gs.viewGerms.getD (x % (gs.viewGerms.length : Int)).toNat (0, 0)).2
  | .fix i => do
    let x ← resolve_value gs memv i
    if gs.viewFood.length = 0 then .ok 0
    else .ok (gs.viewFood.getD (x % (gs.viewFood.length : Int)).toNat (0, 0)).1
  | .fiy i => do
    let x ← resolve_value gs memv i
    if gs.viewFood.length = 0 then .ok 0
    else .ok (gs.viewFood.getD (x % (gs.viewFood.length : Int)).toNat (0, 0)).2

/-! ## The interpreter (`GermBrain.run`) -/

/-- The action request returned by `run` (the Python result dict). -/
inductive Request where
  | empty
  | halt
  | move (x y : Int) (burst : Bool)
  | birth (x y : Int) (burst : Bool)
  | attack (x y : Int) (burst : Bool) (power : Int)
deriving DecidableEq, Repr

/-- Interpreter registers: instruction pointer `head`, accumulators
`ax ay burst power`, and the (mutable) memory. -/
structure IState where
  head : Nat
  iax : Int
  iay : Int
  iburst : Bool
  ipower : Int
  imem : List Int
deriving DecidableEq, Repr

/-- The diagnostic fault raised by `run` (`RuntimeError`): the failing
instruction index and the full code listing. -/
structure Fault where
  line : Nat
  listing : List Cmd
deriving DecidableEq, Repr

/-- Linear scan for the matching mark (`for i, elem in enumerate(self.code)`). -/
def findMark (code : List Cmd) (dest : Nat) : Option Nat :=
  code.findIdx? (fun c => match c with | .mrk n => n = dest | _ => false)

/-- One-step outcome: continue at a new interpreter state, or return a request. -/
inductive StepOut where
  | next (st : IState)
  | done (req : Request) (memv : List Int)
deriving DecidableEq, Repr

/-- One iteration of the dispatch in `GermBrain.run` for the command under the
head.  The trailing `head += 1` of the Python loop body is folded into each
non-returning branch (so a taken branch lands just past its mark). -/
def execCmd (code : List Cmd) (gs : GState) (st : IState) :
    Cmd → Except GermErr StepOut
  | .set i v => do
    let x ← resolve_value gs st.imem i
    if st.imem.length = 0 then .error .emptyMemory
    else do
      let r := (x % (st.imem.length : Int)).toNat
      let v' ← resolve_value gs st.imem v
      .ok (.next { st with imem := st.imem.set r v', head := st.head + 1 })
  | .cif c m => do
    -- `if not expr:` branch to the matching mark, else fall through
    let x ← resolve_value gs st.imem c
    if x = 0 then
      match findMark code m with
      | some i => .ok (.next { st with head := i + 1 })
      | none => .error (.markNotFound m)
    else .ok (.next { st with head := st.head + 1 })
  | .mrk _ => .ok (.next { st with head := st.head + 1 })
  | .ax e => do
    let x ← resolve_value gs st.imem e
    .ok (.next { st with iax := if x < 0 then -1 else if x > 0 then 1 else 0,
                         head := st.head + 1 })
  | .ay e => do
    let x ← resolve_value gs st.imem e
    .ok (.next { st with iay := if x < 0 then -1 else if x > 0 then 1 else 0,
                         head := st.head + 1 })
  | .bst e => do
    -- `burst = resolve(...) == True`; in Python `True == 1`
    let x ← resolve_value gs st.imem e
    .ok (.next { st with iburst := x = 1, head := st.head + 1 })
  | .pwr e => do
    let x ← resolve_value gs st.imem e
    .ok (.next { st with ipower := x % 6, head := st.head + 1 })
  | .mv => .ok (.done (.move st.iax st.iay st.iburst) st.imem)
  | .bir => .ok (.done (.birth st.iax st.iay st.iburst) st.imem)
  | .att => .ok (.done (.attack st.iax st.iay st.iburst st.ipower) st.imem)
  | .ret => .ok (.done .empty st.imem)

/-- Result of a full `run`: the request, the final memory, and how many loop
iterations (`executed`) were performed. -/
structure RunOut where
  req : Request
  memv : List Int
  steps : Nat
deriving DecidableEq, Repr

/-- The `while executed < MAX_EXECUTIONS` loop of `GermBrain.run`, with
`fuel` the remaining budget and `ex` the `executed` counter.  Any evaluator
error is converted into the diagnostic `Fault` (the `except` clause). -/
def runLoop (code : List Cmd) (gs : GState) :
    Nat → IState → Nat → Except Fault RunOut
  | 0, st, ex => .ok ⟨.halt, st.imem, ex⟩
  | fuel + 1, st, ex =>
    if h : st.head < code.length then
      match execCmd code gs st (code.get ⟨st.head, h⟩) with
      | .error _ => .error ⟨st.head, code⟩
      | .ok (.done r m) => .ok ⟨r, m, ex + 1⟩
      | .ok (.next st') => runLoop code gs fuel st' (ex + 1)
    else
      -- code end: return and take no action (always successful)
      .ok ⟨.empty, st.imem, ex + 1⟩

/-- A germ brain: its code, memory and the set of mark ids present. -/
structure Brain where
  code : List Cmd
  memory : List Int
  markIds : Finset Nat
deriving DecidableEq

/-- The initial interpreter registers of a run over memory `m`:
`head = 0`, `ax = ay = 0`, `burst = False`, `power = 0`. -/
def ist0 (m : List Int) : IState := ⟨0, 0, 0, false, 0, m⟩

/-- `GermBrain.run`: execute the code against a state snapshot. -/
def Brain.run (br : Brain) (gs : GState) : Except Fault RunOut :=
  runLoop br.code gs MAX_EXECUTIONS (ist0 br.memory) 0

instance {ε α : Type} [DecidableEq ε] [DecidableEq α] :
    DecidableEq (Except ε α) := fun x y =>
  match x, y with
  | .ok a, .ok b =>
    if h : a = b then isTrue (by rw [h]) else isFalse (by simp [h])
  | .error a, .error b =>
    if h : a = b then isTrue (by rw [h]) else isFalse (by simp [h])
  | .ok _, .error _ => isFalse (by simp)
  | .error _, .ok _ => isFalse (by simp)

/-- Reduction of the `Except` bind on a success value. -/
theorem eok_bind {ε α β : Type} (a : α) (f : α → Except ε β) :
    ((Except.ok a : Except ε α) >>= f) = f a := rfl

/-- Reduction of the `Except` bind on an error value. -/
theorem eerr_bind {ε α β : Type} (e : ε) (f : α → Except ε β) :
    ((Except.error e : Except ε α) >>= f) = Except.error e := rfl

/-! ## The mutation engine -/

/-- Kinds of mutable elements found by `flatten`: a command, an operator with
only leaf arguments, or a leaf value. -/
inductive SiteKind where
  | scmd
  | soper
  | sval
deriving DecidableEq, Repr

/-- An address of a mutable element: its kind plus the index path from the
code root, exactly as `flatten` builds it. -/
structure Site where
  kind : SiteKind
  addr : List Nat
deriving DecidableEq, Repr

/-- Leaf test used by `flatten`'s "all arguments are values" check
(`type(elem) is not list`). -/
def Expr.isLeaf : Expr → Bool
  | .lit _ => true
  | .sym _ => true
  | _ => false

/-- `flatten` restricted to expressions: leaf values are `sval` sites unless
they are mark ids (strings starting with `'m'`); an operator is an `soper`
site iff all its direct arguments are leaves; arguments are visited at
child positions 1, 2. -/
def flattenExpr : Expr → List Nat → List Site
  | .lit _, addr => [⟨.sval, addr⟩]
  | .sym s, addr => if s.startsWith "m" then [] else [⟨.sval, addr⟩]
  | .add a b, addr =>
    (if a.isLeaf && b.isLeaf then [⟨.soper, addr⟩] else []) ++
      flattenExpr a (addr ++ [1]) ++ flattenExpr b (addr ++ [2])
  | .sub a b, addr =>
    (if a.isLeaf && b.isLeaf then [⟨.soper, addr⟩] else []) ++
      flattenExpr a (addr ++ [1]) ++ flattenExpr b (addr ++ [2])
  | .mul a b, addr =>
    (if a.isLeaf && b.isLeaf then [⟨.soper, addr⟩] else []) ++
      flattenExpr a (addr ++ [1]) ++ flattenExpr b (addr ++ [2])
  | .div a b, addr =>
    (if a.isLeaf && b.isLeaf then [⟨.soper, addr⟩] else []) ++
      flattenExpr a (addr ++ [1]) ++ flattenExpr b (addr ++ [2])
  | .band a b, addr =>
    (if a.isLeaf && b.isLeaf then [⟨.soper, addr⟩] else []) ++
      flattenExpr a (addr ++ [1]) ++ flattenExpr b (addr ++ [2])
  | .bor a b, addr =>
    (if a.isLeaf && b.isLeaf then [⟨.soper, addr⟩] else []) ++
      flattenExpr a (addr ++ [1]) ++ flattenExpr b (addr ++ [2])
  | .bnot a, addr =>
    (if a.isLeaf then [⟨.soper, addr⟩] else []) ++ flattenExpr a (addr ++ [1])
  | .lt a b, addr =>
    (if a.isLeaf && b.isLeaf then [⟨.soper, addr⟩] else []) ++
      flattenExpr a (addr ++ [1]) ++ flattenExpr b (addr ++ [2])
  | .gt a b, addr =>
    (if a.isLeaf && b.isLeaf then [⟨.soper, addr⟩] else []) ++
      flattenExpr a (addr ++ [1]) ++ flattenExpr b (addr ++ [2])
  | .eq a b, addr =>
    (if a.isLeaf && b.isLeaf then [⟨.soper, addr⟩] else []) ++
      flattenExpr a (addr ++ [1]) ++ flattenExpr b (addr ++ [2])
  | .ne a b, addr =>
    (if a.isLeaf && b.isLeaf then [⟨.soper, addr⟩] else []) ++
      flattenExpr a (addr ++ [1]) ++ flattenExpr b (addr ++ [2])
  | .mem i, addr =>
    (if i.isLeaf then [⟨.soper, addr⟩] else []) ++ flattenExpr i (addr ++ [1])
  | .gix i, addr =>
    (if i.isLeaf then [⟨.soper, addr⟩] else []) ++ flattenExpr i (addr ++ [1])
  | .giy i, addr =>
    (if i.isLeaf then [⟨.soper, addr⟩] else []) ++ flattenExpr i (addr ++ [1])
  | .fix i, addr =>
    (if i.isLeaf then [⟨.soper, addr⟩] else []) ++ flattenExpr i (addr ++ [1])
  | .fiy i, addr =>
    (if i.isLeaf then [⟨.soper, addr⟩] else []) ++ flattenExpr i (addr ++ [1])

/-- `flatten` for a whole command at index `i` of the code: `mrk` contributes
nothing; any other command is a `scmd` site followed by the sites of its
expression arguments (the mark argument of `'if'` is a mark id and
contributes nothing). -/
def flattenCmd (c : Cmd) (i : Nat) : List Site :=
  match c with
  | .set a b => ⟨.scmd, [i]⟩ :: (flattenExpr a [i, 1] ++ flattenExpr b [i, 2])
  | .cif c _ => ⟨.scmd, [i]⟩ :: flattenExpr c [i, 1]
  | .mrk _ => []
  | .ax e => ⟨.scmd, [i]⟩ :: flattenExpr e [i, 1]
  | .ay e => ⟨.scmd, [i]⟩ :: flattenExpr e [i, 1]
  | .bst e => ⟨.scmd, [i]⟩ :: flattenExpr e [i, 1]
  | .pwr e => ⟨.scmd, [i]⟩ :: flattenExpr e [i, 1]
  | .mv => [⟨.scmd, [i]⟩]
  | .bir => [⟨.scmd, [i]⟩]
  | .att => [⟨.scmd, [i]⟩]
  | .ret => [⟨.scmd, [i]⟩]

/-- The flat list of mutable sites of a whole code list. -/
def flat_code (code : List Cmd) : List Site :=
  code.enum.flatMap fun p => flattenCmd p.2 p.1

/-- Choices consumed by one `rand_value` call: the category draw and the
draws inside each category. -/
structure VC where
  cat : Nat
  n : Int
  s : Nat
deriving DecidableEq, Repr

/-- `GermBrain.rand_value`: a random int literal or special-value symbol.
Note the symbol choices never start with `'m'`. -/
def rand_value (v : VC) : Expr :=
  match v.cat % 3 with
  | 0 => .lit (v.n.emod 2 - 1)          -- randrange(-1, 1)
  | 1 => .lit (v.n.emod 1000 - 500)     -- randrange(-500, 500)
  | _ => .sym (["energy", "brightness", "stamina", "pain", "success"].getD
      (v.s % 5) "energy")

/-- Choices consumed by one `rand_operator` call.  The Python builds all 16
candidates (drawing fresh leaf values for each) and then picks one; since
`rand_value` has no side effects, only the chosen operator's draws are kept. -/
structure OC where
  pick : Nat
  a : VC
  b : VC
deriving DecidableEq, Repr

/-- `GermBrain.rand_operator`: a random non-nested operator expression. -/
def rand_operator (o : OC) : Expr :=
  match o.pick % 16 with
  | 0 => .add (rand_value o.a) (rand_value o.b)
  | 1 => .sub (rand_value o.a) (rand_value o.b)
  | 2 => .mul (rand_value o.a) (rand_value o.b)
  | 3 => .div (rand_value o.a) (rand_value o.b)
  | 4 => .band (rand_value o.a) (rand_value o.b)
  | 5 => .bor (rand_value o.a) (rand_value o.b)
  | 6 => .bnot (rand_value o.a)
  | 7 => .lt (rand_value o.a) (rand_value o.b)
  | 8 => .gt (rand_value o.a) (rand_value o.b)
  | 9 => .eq (rand_value o.a) (rand_value o.b)
  | 10 => .ne (rand_value o.a) (rand_value o.b)
  | 11 => .mem (rand_value o.a)
  | 12 => .gix (rand_value o.a)
  | 13 => .giy (rand_value o.a)
  | 14 => .fix (rand_value o.a)
  | _ => .fiy (rand_value o.a)

/-- Python `list.insert`: inserts before position `i`, appending when `i`
is past the end. -/
def insertAt (l : List α) (i : Nat) (a : α) : List α :=
  l.take i ++ a :: l.drop i

/-- The smallest mark id not yet in use.  The Python computes
`min(set(range(max(ids) + 2)) - ids)` (or 0 when no ids exist); scanning
`0 .. card` finds the same least unused id. -/
def freshMark (s : Finset Nat) : Nat :=
  (((List.range (s.card + 1)).filter fun n => decide (n ∉ s)).headD 0)

/-- `GermBrain.add_rand_mark`: insert a fresh mark at a random position and
record its id; returns the id. -/
def add_rand_mark (pos : Nat) (br : Brain) : Nat × Brain :=
  let newId := freshMark br.markIds
  ⟨newId,
   { br with
      code := insertAt br.code (pos % (br.code.length + 1)) (.mrk newId),
      markIds := insert newId br.markIds }⟩

/-- Choices consumed by one `rand_command` call. -/
structure CC where
  markPos : Nat
  pick : Nat
  v1 : VC
  v2 : VC
deriving DecidableEq, Repr

/-- The ten command candidates of `rand_command`; `mid` is the id returned
by the `add_rand_mark` call. -/
def rand_cmd_pick (k : Nat) (v1 v2 : VC) (mid : Nat) : Cmd :=
  match k with
  | 0 => .set (rand_value v1) (rand_value v2)
  | 1 => .cif (rand_value v1) mid
  | 2 => .ax (rand_value v1)
  | 3 => .ay (rand_value v1)
  | 4 => .bst (rand_value v1)
  | 5 => .pwr (rand_value v1)
  | 6 => .mv
  | 7 => .bir
  | 8 => .att
  | _ => .ret

/-- `GermBrain.rand_command`.  The Python evaluates every candidate before
`choice`, so `add_rand_mark` runs exactly once whichever command is chosen
(a stray mark is inserted even when the `'if'` candidate is not picked);
the leaf-value draws of unchosen candidates are dropped. -/
def rand_command (cc : CC) (br : Brain) : Cmd × Brain :=
  (rand_cmd_pick (cc.pick % 10) cc.v1 cc.v2 (add_rand_mark cc.markPos br).1,
   (add_rand_mark cc.markPos br).2)

/-- All random draws consumed by one `mutate` call. -/
structure MutChoice where
  site : Nat
  del : Bool
  after : Nat
  cc : CC
  newOp : Bool
  vc : VC
  oc : OC
deriving DecidableEq, Repr

/-- `GermBrain.mutate_command` at command index `i`: with even odds either
delete the command (an `'if'` also deletes its paired mark and frees the
id), or insert one freshly generated command just before or after it. -/
def mutate_command (ch : MutChoice) (br : Brain) (i : Nat) : Brain :=
  match br.code[i]? with
  | none => br
  | some command =>
    if ch.del then
      let code' := br.code.eraseIdx i
      match command with
      | .cif _ m =>
        { br with code := code'.erase (.mrk m), markIds := br.markIds.erase m }
      | _ => { br with code := code' }
    else
      let index := i + ch.after % 2
      let p := rand_command ch.cc br
      { p.2 with code := insertAt p.2.code index p.1 }

/-- Replace the sub-expression at a child-index path (`elem[i]` navigation of
`mutate_expression`); an address that does not exist leaves the expression
unchanged (such addresses are never produced by `flatten`). -/
def setExprPath : Expr → List Nat → Expr → Expr
  | _, [], n => n
  | .add a b, 1 :: r, n => .add (setExprPath a r n) b
  | .add a b, 2 :: r, n => .add a (setExprPath b r n)
  | .sub a b, 1 :: r, n => .sub (setExprPath a r n) b
  | .sub a b, 2 :: r, n => .sub a (setExprPath b r n)
  | .mul a b, 1 :: r, n => .mul (setExprPath a r n) b
  | .mul a b, 2 :: r, n => .mul a (setExprPath b r n)
  | .div a b, 1 :: r, n => .div (setExprPath a r n) b
  | .div a b, 2 :: r, n => .div a (setExprPath b r n)
  | .band a b, 1 :: r, n => .band (setExprPath a r n) b
  | .band a b, 2 :: r, n => .band a (setExprPath b r n)
  | .bor a b, 1 :: r, n => .bor (setExprPath a r n) b
  | .bor a b, 2 :: r, n => .bor a (setExprPath b r n)
  | .bnot a, 1 :: r, n => .bnot (setExprPath a r n)
  | .lt a b, 1 :: r, n => .lt (setExprPath a r n) b
  | .lt a b, 2 :: r, n => .lt a (setExprPath b r n)
  | .gt a b, 1 :: r, n => .gt (setExprPath a r n) b
  | .gt a b, 2 :: r, n => .gt a (setExprPath b r n)
  | .eq a b, 1 :: r, n => .eq (setExprPath a r n) b
  | .eq a b, 2 :: r, n => .eq a (setExprPath b r n)
  | .ne a b, 1 :: r, n => .ne (setExprPath a r n) b
  | .ne a b, 2 :: r, n => .ne a (setExprPath b r n)
  | .mem i, 1 :: r, n => .mem (setExprPath i r n)
  | .gix i, 1 :: r, n => .gix (setExprPath i r n)
  | .giy i, 1 :: r, n => .giy (setExprPath i r n)
  | .fix i, 1 :: r, n => .fix (setExprPath i r n)
  | .fiy i, 1 :: r, n => .fiy (setExprPath i r n)
  | e, _, _ => e

/-- Replace the expression at a path inside a command's arguments.  The
command constructor and any mark argument are untouched (mark arguments are
never mutation sites). -/
def setCmdPath (c : Cmd) (j : Nat) (rest : List Nat) (n : Expr) : Cmd :=
  match c with
  | .set a b =>
    if j = 1 then .set (setExprPath a rest n) b
    else if j = 2 then .set a (setExprPath b rest n) else c
  | .cif cond m => if j = 1 then .cif (setExprPath cond rest n) m else c
  | .ax e => if j = 1 then .ax (setExprPath e rest n) else c
  | .ay e => if j = 1 then .ay (setExprPath e rest n) else c
  | .bst e => if j = 1 then .bst (setExprPath e rest n) else c
  | .pwr e => if j = 1 then .pwr (setExprPath e rest n) else c
  | _ => c

/-- `GermBrain.mutate_expression`: replace the addressed expression by a new
random value, or (when not too deeply nested) a new random operator. -/
def mutate_expression (ch : MutChoice) (br : Brain) (addr : List Nat) : Brain :=
  -- depth guard: `len(address) < sys.getrecursionlimit() - 10` (limit 1000)
  let newE :=
    if addr.length < 990 then
      if ch.newOp then rand_operator ch.oc else rand_value ch.vc
    else rand_value ch.vc
  match addr with
  | i :: j :: rest =>
    match br.code[i]? with
    | some c => { br with code := br.code.set i (setCmdPath c j rest newE) }
    | none => br
  | _ => br

/-- `GermBrain.mutate`: flatten the code into mutable sites, pick one
uniformly, and dispatch on its kind (no-op when the code has no sites). -/
def Brain.mutate (ch : MutChoice) (br : Brain) : Brain :=
  let flat := flat_code br.code
  if flat.isEmpty then br
  else
    let site := flat.getD (ch.site % flat.length) ⟨.sval, []⟩
    match site.kind with
    | .scmd =>
      match site.addr with
      | [i] => mutate_command ch br i
      | _ => br
    | _ => mutate_expression ch br site.addr

/-- The mark id carried by a `mrk` command, if any. -/
def markOf? : Cmd → Option Nat
  | .mrk m => some m
  | _ => none

/-- The mark target carried by an `'if'` command, if any. -/
def targetOf? : Cmd → Option Nat
  | .cif _ m => some m
  | _ => none

/-- Mark ids of the `mrk` commands of a code list, in order. -/
def marksOf (code : List Cmd) : List Nat := code.filterMap markOf?

/-- Mark targets of the `'if'` commands of a code list, in order. -/
def targetsOf (code : List Cmd) : List Nat := code.filterMap targetOf?

/-- `GermBrain.__init__` with zero mutations: fresh memory, and the mark-id
set collected from the code. -/
def mkBrain (code : List Cmd) : Brain :=
  ⟨code, List.replicate MEMORY_SIZE 0, (marksOf code).toFinset⟩

/-- `STARTING_CODE` of `germ_tank.py`. -/
def STARTING_CODE : List Cmd :=
  [.cif (.gt (.sym "energy") (.lit 70)) 0,
   .ax (.lit 1),
   .bir,
   .mrk 0,
   .ax (.fix (.lit 0)),
   .ay (.fiy (.lit 0)),
   .mv]

/-- Brains reachable from the valid starting program by mutation steps and
by inheritance (a child brain is rebuilt from the parent's code). -/
inductive ReachableBrain : Brain → Prop where
  | start : ReachableBrain (mkBrain STARTING_CODE)
  | mutStep (ch : MutChoice) {br : Brain} :
      ReachableBrain br → ReachableBrain (br.mutate ch)
  | born {br : Brain} : ReachableBrain br → ReachableBrain (mkBrain br.code)

/-! ## Interpreter-level claims (C2, C3) -/

/-- Terminal instructions: they return an action and stop execution. -/
def Cmd.isTerminal : Cmd → Bool
  | .mv => true
  | .bir => true
  | .att => true
  | .ret => true
  | _ => false

/-- A fixed concrete state snapshot used by concrete evaluations. -/
def gs0 : GState := ⟨0, 0, 0, 0, false, [], []⟩

/-- A four-command code whose first command is a branch (`'if'`) whose
matching mark sits at position 2. -/
def c2code : List Cmd := [.cif (.lit 1) 0, .mv, .mrk 0, .ret]

/-- C2 (counterexample): the claim says a *true* condition jumps the head to
the matching mark and a false one advances by 1.  On `c2code` the branch
with the true condition `1` advances the head from 0 to 1 although the
matching mark sits at position 2, and with the false condition `0` the head
jumps to 3 (just past the mark) rather than advancing to 1. -/
theorem c2_branch_counterexample :
    execCmd c2code gs0 (ist0 []) (.cif (.lit 1) 0) =
      .ok (.next { ist0 [] with head := 1 }) ∧
    findMark c2code 0 = some 2 ∧ (1 : Nat) ≠ 2 ∧
    execCmd c2code gs0 (ist0 []) (.cif (.lit 0) 0) =
      .ok (.next { ist0 [] with head := 3 }) ∧ (3 : Nat) ≠ 0 + 1 := by
  refine ⟨by decide, by decide, by decide, by decide, by decide⟩

/-- C2 (amended): executing `BranchIfTrue`-style `'if'` with a condition that
evaluates *truthy* advances the head by 1; with a *falsy* condition the head
jumps just past the position of the matching `Mark` (found by linear scan),
and if no match exists the step fails with the unresolved-mark error. -/
theorem c2_branch_semantics (code : List Cmd) (gs : GState) (st : IState)
    (cond : Expr) (m : Nat) (v : Int)
    (hres : resolve_value gs st.imem cond = .ok v) :
    (v ≠ 0 →
      execCmd code gs st (.cif cond m) = .ok (.next { st with head := st.head + 1 })) ∧
    (v = 0 → ∀ i, findMark code m = some i →
      execCmd code gs st (.cif cond m) = .ok (.next { st with head := i + 1 })) ∧
    (v = 0 → findMark code m = none →
      execCmd code gs st (.cif cond m) = .error (.markNotFound m)) := by
  refine ⟨?_, ?_, ?_⟩
  · intro hv
    simp [execCmd, hres, eok_bind, hv]
  · intro hv i hi
    simp [execCmd, hres, eok_bind, hv, hi]
  · intro hv hi
    simp [execCmd, hres, eok_bind, hv, hi]

/-- C2 (witness): the amended semantics applied to `c2code` at the truthy
condition `1`. -/
theorem c2_branch_semantics_witness :
    resolve_value gs0 [] (.lit 1) = .ok 1 ∧
    execCmd c2code gs0 (ist0 []) (.cif (.lit 1) 0) =
      .ok (.next { ist0 [] with head := 1 }) :=
  ⟨by decide, (c2_branch_semantics c2code gs0 (ist0 []) (.lit 1) 0 1 (by decide)).1
    (by decide)⟩

/-- On a non-terminal command, one interpreter step never returns a request:
it either continues at a new state or raises an evaluator error. -/
theorem execCmd_not_done (code : List Cmd) (gs : GState) (st : IState)
    {c : Cmd} (hc : c.isTerminal = false) (r : Request) (m : List Int) :
    execCmd code gs st c ≠ .ok (.done r m) := by
  cases c with
  | set i v =>
    cases h1 : resolve_value gs st.imem i with
    | error e => simp [execCmd, h1, eerr_bind]
    | ok x =>
      cases h2 : resolve_value gs st.imem v with
      | error e => simp [execCmd, h1, h2, eok_bind, eerr_bind] <;> split <;> simp
      | ok y => simp [execCmd, h1, h2, eok_bind] <;> split <;> simp
  | cif cnd mk =>
    cases h1 : resolve_value gs st.imem cnd with
    | error e => simp [execCmd, h1, eerr_bind]
    | ok x =>
      by_cases hx : x = 0
      · cases h2 : findMark code mk <;> simp [execCmd, h1, hx, h2, eok_bind]
      · simp [execCmd, h1, hx, eok_bind]
  | mrk mk => simp [execCmd]
  | ax e =>
    cases h1 : resolve_value gs st.imem e with
    | error e' => simp [execCmd, h1, eerr_bind]
    | ok x => simp [execCmd, h1, eok_bind]
  | ay e =>
    cases h1 : resolve_value gs st.imem e with
    | error e' => simp [execCmd, h1, eerr_bind]
    | ok x => simp [execCmd, h1, eok_bind]
  | bst e =>
    cases h1 : resolve_value gs st.imem e with
    | error e' => simp [execCmd, h1, eerr_bind]
    | ok x => simp [execCmd, h1, eok_bind]
  | pwr e =>
    cases h1 : resolve_value gs st.imem e with
    | error e' => simp [execCmd, h1, eerr_bind]
    | ok x => simp [execCmd, h1, eok_bind]
  | mv => simp [Cmd.isTerminal] at hc
  | bir => simp [Cmd.isTerminal] at hc
  | att => simp [Cmd.isTerminal] at hc
  | ret => simp [Cmd.isTerminal] at hc

/-- For a code without terminal instructions, a successful run returns
either the empty request (running past the end) or, exactly when the whole
budget is consumed, the halt request. -/
theorem runLoop_no_terminal (code : List Cmd) (gs : GState)
    (hterm : ∀ c ∈ code, c.isTerminal = false) :
    ∀ (fuel : Nat) (st : IState) (ex : Nat) (out : RunOut),
      runLoop code gs fuel st ex = .ok out →
      out.req = .empty ∨ (out.req = .halt ∧ out.steps = ex + fuel) := by
  intro fuel
  induction fuel with
  | zero =>
    intro st ex out h
    simp [runLoop] at h
    right
    simp [← h]
  | succ f ih =>
    intro st ex out h
    rw [runLoop] at h
    by_cases hh : st.head < code.length
    · simp only [hh, dif_pos] at h
      cases hex : execCmd code gs st (code.get ⟨st.head, hh⟩) with
      | error e => rw [hex] at h; exact absurd h (by simp)
      | ok so =>
        cases so with
        | done r m =>
          exact absurd hex
            (execCmd_not_done code gs st (hterm _ (code.get_mem _ _)) r m)
        | next st' =>
          rw [hex] at h
          have := ih st' (ex + 1) out h
          rcases this with h1 | ⟨h1, h2⟩
          · exact Or.inl h1
          · exact Or.inr ⟨h1, by omega⟩
    · simp only [hh, dif_neg, not_false_iff] at h
      left
      have : out = ⟨.empty, st.imem, ex + 1⟩ := by
        cases h
        rfl
      simp [this]

/-- C3 (counterexample): the claim says every code of length ≥ 1 without a
terminal instruction returns Halt after exactly `MAX_EXECUTIONS` steps.  The
one-command code `[mrk 0]` has no terminal instruction, yet the run falls
off the end and returns the empty request after 2 steps. -/
theorem c3_no_terminal_counterexample :
    (∀ c ∈ [Cmd.mrk 0], c.isTerminal = false) ∧
    (mkBrain [Cmd.mrk 0]).run gs0 =
      .ok ⟨.empty, List.replicate 100 (0 : Int), 2⟩ ∧
    Request.empty ≠ Request.halt ∧ (2 : Nat) ≠ MAX_EXECUTIONS := by
  refine ⟨by decide, by decide, by decide, by decide⟩

/-- C3 (amended): for every code of length ≥ 1 with no terminal instruction
and every input state, a successful run returns either the empty request
(the head ran past the end) or the distinguished Halt request, the latter
after exactly `MAX_EXECUTIONS` executed steps; it never returns a move,
birth or attack action.  (A run may instead fault on an evaluator error.) -/
theorem c3_no_terminal_run (br : Brain) (gs : GState) (out : RunOut)
    (hlen : 1 ≤ br.code.length)
    (hterm : ∀ c ∈ br.code, c.isTerminal = false)
    (hrun : br.run gs = .ok out) :
    out.req = .empty ∨ (out.req = .halt ∧ out.steps = MAX_EXECUTIONS) := by
  have := runLoop_no_terminal br.code gs hterm MAX_EXECUTIONS
    (ist0 br.memory) 0 out hrun
  simpa using this

/-- C3 (witness): the amended statement applied to the concrete brain over
`[mrk 0]`, whose run returns the empty request. -/
theorem c3_no_terminal_run_witness :
    (mkBrain [Cmd.mrk 0]).run gs0 =
      .ok ⟨.empty, List.replicate 100 (0 : Int), 2⟩ ∧
    (Request.empty = Request.empty ∨
      (Request.empty = Request.halt ∧ 2 = MAX_EXECUTIONS)) :=
  ⟨by decide,
   c3_no_terminal_run (mkBrain [Cmd.mrk 0]) gs0
     ⟨.empty, List.replicate 100 (0 : Int), 2⟩ (by decide) (by decide) (by decide)⟩

/-! ## Structural validity of mutated code (C4) -/

/-- The structural-validity invariant on a code list and a mark-id set:
mark ids are pairwise distinct, branch targets are pairwise distinct, every
branch target has a matching mark, and the recorded id set is exactly the
set of marks present. -/
structure InvC (code : List Cmd) (ids : Finset Nat) : Prop where
  mnd : (marksOf code).Nodup
  tnd : (targetsOf code).Nodup
  sub : ∀ t ∈ targetsOf code, t ∈ marksOf code
  ide : ids = (marksOf code).toFinset

/-- The invariant on a brain. -/
def CodeOK (br : Brain) : Prop := InvC br.code br.markIds

theorem perm_toFinset {α : Type} [DecidableEq α] {l1 l2 : List α}
    (h : l1.Perm l2) : l1.toFinset = l2.toFinset := by
  ext a
  simp [List.mem_toFinset, h.mem_iff]

/-- The invariant transports along permutations of the code. -/
theorem InvC.perm {c1 c2 : List Cmd} {ids : Finset Nat}
    (hp : c1.Perm c2) (h : InvC c1 ids) : InvC c2 ids := by
  have hm := hp.filterMap markOf?
  have ht := hp.filterMap targetOf?
  exact ⟨hm.nodup_iff.mp h.mnd, ht.nodup_iff.mp h.tnd,
    fun t hin => hm.mem_iff.mp (h.sub t (ht.mem_iff.mpr hin)),
    h.ide.trans (perm_toFinset hm)⟩

theorem markOf?_eq_some {c : Cmd} {m : Nat} : markOf? c = some m ↔ c = .mrk m := by
  cases c <;> simp [markOf?]

theorem targetOf?_eq_some {c : Cmd} {m : Nat} :
    targetOf? c = some m ↔ ∃ e, c = .cif e m := by
  cases c <;> simp [targetOf?]

theorem mem_marksOf {code : List Cmd} {m : Nat} :
    m ∈ marksOf code ↔ Cmd.mrk m ∈ code := by
  simp [marksOf, List.mem_filterMap, markOf?_eq_some]

theorem marksOf_cons (c : Cmd) (l : List Cmd) :
    marksOf (c :: l) = match markOf? c with
      | some m => m :: marksOf l
      | none => marksOf l := by
  simp only [marksOf, List.filterMap_cons]
  cases markOf? c <;> rfl

theorem targetsOf_cons (c : Cmd) (l : List Cmd) :
    targetsOf (c :: l) = match targetOf? c with
      | some m => m :: targetsOf l
      | none => targetsOf l := by
  simp only [targetsOf, List.filterMap_cons]
  cases targetOf? c <;> rfl

/-- Python `list.insert` produces a permutation of consing the element. -/
theorem insertAt_perm (l : List α) (i : Nat) (a : α) :
    (insertAt l i a).Perm (a :: l) := by
  unfold insertAt
  calc (l.take i ++ a :: l.drop i).Perm (a :: (l.take i ++ l.drop i)) :=
        List.perm_middle
    _ = a :: l := by rw [List.take_append_drop]

/-- Removing the element at a valid index is erasing one occurrence:
the original list is a permutation of the removed element consed on the
remainder. -/
theorem eraseIdx_perm {l : List α} {i : Nat} {a : α}
    (h : l[i]? = some a) : l.Perm (a :: l.eraseIdx i) := by
  induction l generalizing i with
  | nil => simp at h
  | cons x xs ih =>
    cases i with
    | zero =>
      simp at h
      subst h
      simp [List.eraseIdx]
    | succ j =>
      simp at h
      have h1 := (ih h).cons x
      have h2 : (x :: a :: xs.eraseIdx j).Perm (a :: x :: xs.eraseIdx j) :=
        List.Perm.swap a x _
      have h3 : (x :: xs).eraseIdx (j + 1) = x :: xs.eraseIdx j := by
        simp [List.eraseIdx]
      rw [h3]
      exact h1.trans h2

/-- The fresh mark id really is unused. -/
theorem freshMark_not_mem (s : Finset Nat) : freshMark s ∉ s := by
  unfold freshMark
  set l := (List.range (s.card + 1)).filter (fun n => decide (n ∉ s)) with hl
  have hne : l ≠ [] := by
    intro hnil
    have hsub : Finset.range (s.card + 1) ⊆ s := by
      intro n hn
      by_contra hns
      have hmem : n ∈ l := by
        rw [hl]
        exact List.mem_filter.mpr
          ⟨List.mem_range.mpr (Finset.mem_range.mp hn), by simpa using hns⟩
      rw [hnil] at hmem
      simp at hmem
    have := Finset.card_le_card hsub
    simp [Finset.card_range] at this
  have hmem : l.headD 0 ∈ l := by
    cases hc : l with
    | nil => exact absurd hc hne
    | cons x xs => simp [hc]
  have := (List.mem_filter.mp hmem).2
  simpa using this

/-- Sites produced inside expressions are never command sites. -/
theorem flattenExpr_kind (e : Expr) :
    ∀ (addr : List Nat), ∀ s ∈ flattenExpr e addr, s.kind ≠ .scmd := by
  induction e with
  | lit n =>
    intro addr s hs
    simp [flattenExpr] at hs
    subst hs
    simp
  | sym str =>
    intro addr s hs
    rw [flattenExpr] at hs
    split at hs
    · simp at hs
    · simp at hs
      subst hs
      simp
  | bnot a iha =>
    intro addr s hs
    rw [flattenExpr] at hs
    rcases List.mem_append.mp hs with h | h
    · split at h <;> simp at h
      subst h
      simp
    · exact iha _ s h
  | mem a iha =>
    intro addr s hs
    rw [flattenExpr] at hs
    rcases List.mem_append.mp hs with h | h
    · split at h <;> simp at h
      subst h
      simp
    · exact iha _ s h
  | gix a iha =>
    intro addr s hs
    rw [flattenExpr] at hs
    rcases List.mem_append.mp hs with h | h
    · split at h <;> simp at h
      subst h
      simp
    · exact iha _ s h
  | giy a iha =>
    intro addr s hs
    rw [flattenExpr] at hs
    rcases List.mem_append.mp hs with h | h
    · split at h <;> simp at h
      subst h
      simp
    · exact iha _ s h
  | fix a iha =>
    intro addr s hs
    rw [flattenExpr] at hs
    rcases List.mem_append.mp hs with h | h
    · split at h <;> simp at h
      subst h
      simp
    · exact iha _ s h
  | fiy a iha =>
    intro addr s hs
    rw [flattenExpr] at hs
    rcases List.mem_append.mp hs with h | h
    · split at h <;> simp at h
      subst h
      simp
    · exact iha _ s h
  | add a b iha ihb =>
    intro addr s hs
    rw [flattenExpr] at hs
    rcases List.mem_append.mp hs with h | h
    · rcases List.mem_append.mp h with h' | h'
      · split at h' <;> simp at h'
        subst h'
        simp
      · exact iha _ s h'
    · exact ihb _ s h
  | sub a b iha ihb =>
    intro addr s hs
    rw [flattenExpr] at hs
    rcases List.mem_append.mp hs with h | h
    · rcases List.mem_append.mp h with h' | h'
      · split at h' <;> simp at h'
        subst h'
        simp
      · exact iha _ s h'
    · exact ihb _ s h
  | mul a b iha ihb =>
    intro addr s hs
    rw [flattenExpr] at hs
    rcases List.mem_append.mp hs with h | h
    · rcases List.mem_append.mp h with h' | h'
      · split at h' <;> simp at h'
        subst h'
        simp
      · exact iha _ s h'
    · exact ihb _ s h
  | div a b iha ihb =>
    intro addr s hs
    rw [flattenExpr] at hs
    rcases List.mem_append.mp hs with h | h
    · rcases List.mem_append.mp h with h' | h'
      · split at h' <;> simp at h'
        subst h'
        simp
      · exact iha _ s h'
    · exact ihb _ s h
  | band a b iha ihb =>
    intro addr s hs
    rw [flattenExpr] at hs
    rcases List.mem_append.mp hs with h | h
    · rcases List.mem_append.mp h with h' | h'
      · split at h' <;> simp at h'
        subst h'
        simp
      · exact iha _ s h'
    · exact ihb _ s h
  | bor a b iha ihb =>
    intro addr s hs
    rw [flattenExpr] at hs
    rcases List.mem_append.mp hs with h | h
    · rcases List.mem_append.mp h with h' | h'
      · split at h' <;> simp at h'
        subst h'
        simp
      · exact iha _ s h'
    · exact ihb _ s h
  | lt a b iha ihb =>
    intro addr s hs
    rw [flattenExpr] at hs
    rcases List.mem_append.mp hs with h | h
    · rcases List.mem_append.mp h with h' | h'
      · split at h' <;> simp at h'
        subst h'
        simp
      · exact iha _ s h'
    · exact ihb _ s h
  | gt a b iha ihb =>
    intro addr s hs
    rw [flattenExpr] at hs
    rcases List.mem_append.mp hs with h | h
    · rcases List.mem_append.mp h with h' | h'
      · split at h' <;> simp at h'
        subst h'
        simp
      · exact iha _ s h'
    · exact ihb _ s h
  | eq a b iha ihb =>
    intro addr s hs
    rw [flattenExpr] at hs
    rcases List.mem_append.mp hs with h | h
    · rcases List.mem_append.mp h with h' | h'
      · split at h' <;> simp at h'
        subst h'
        simp
      · exact iha _ s h'
    · exact ihb _ s h
  | ne a b iha ihb =>
    intro addr s hs
    rw [flattenExpr] at hs
    rcases List.mem_append.mp hs with h | h
    · rcases List.mem_append.mp h with h' | h'
      · split at h' <;> simp at h'
        subst h'
        simp
      · exact iha _ s h'
    · exact ihb _ s h

/-- Command sites found by `flatten` carry the command's one-entry address
and never point at a `mrk` command. -/
theorem flattenCmd_scmd {c : Cmd} {i : Nat} {s : Site}
    (hs : s ∈ flattenCmd c i) (hk : s.kind = .scmd) :
    s.addr = [i] ∧ ∀ m, c ≠ .mrk m := by
  cases c with
  | set a b =>
    rcases List.mem_cons.mp hs with h | h
    · subst h
      exact ⟨rfl, by simp⟩
    · rcases List.mem_append.mp h with h' | h'
      · exact absurd hk (flattenExpr_kind a _ s h')
      · exact absurd hk (flattenExpr_kind b _ s h')
  | cif e m =>
    rcases List.mem_cons.mp hs with h | h
    · subst h
      exact ⟨rfl, by simp⟩
    · exact absurd hk (flattenExpr_kind e _ s h)
  | mrk m => simp [flattenCmd] at hs
  | ax e =>
    rcases List.mem_cons.mp hs with h | h
    · subst h
      exact ⟨rfl, by simp⟩
    · exact absurd hk (flattenExpr_kind e _ s h)
  | ay e =>
    rcases List.mem_cons.mp hs with h | h
    · subst h
      exact ⟨rfl, by simp⟩
    · exact absurd hk (flattenExpr_kind e _ s h)
  | bst e =>
    rcases List.mem_cons.mp hs with h | h
    · subst h
      exact ⟨rfl, by simp⟩
    · exact absurd hk (flattenExpr_kind e _ s h)
  | pwr e =>
    rcases List.mem_cons.mp hs with h | h
    · subst h
      exact ⟨rfl, by simp⟩
    · exact absurd hk (flattenExpr_kind e _ s h)
  | mv =>
    simp [flattenCmd] at hs
    subst hs
    exact ⟨rfl, by simp⟩
  | bir =>
    simp [flattenCmd] at hs
    subst hs
    exact ⟨rfl, by simp⟩
  | att =>
    simp [flattenCmd] at hs
    subst hs
    exact ⟨rfl, by simp⟩
  | ret =>
    simp [flattenCmd] at hs
    subst hs
    exact ⟨rfl, by simp⟩

/-- A command site of the flat site list addresses an existing non-`mrk`
command of the code. -/
theorem flat_code_scmd {code : List Cmd} {s : Site}
    (hs : s ∈ flat_code code) (hk : s.kind = .scmd) :
    ∃ i c, s.addr = [i] ∧ code[i]? = some c ∧ ∀ m, c ≠ .mrk m := by
  rw [flat_code, List.mem_flatMap] at hs
  obtain ⟨p, hp, hsp⟩ := hs
  obtain ⟨i, c⟩ := p
  have hg : code[i]? = some c := List.mk_mem_enum_iff_getElem?.mp hp
  have h2 := flattenCmd_scmd hsp hk
  exact ⟨i, c, h2.1, hg, h2.2⟩

/-- Replacing an expression inside a command leaves its mark id unchanged. -/
theorem markOf?_setCmdPath (c : Cmd) (j : Nat) (rest : List Nat) (n : Expr) :
    markOf? (setCmdPath c j rest n) = markOf? c := by
  cases c with
  | set a b => simp only [setCmdPath]; split_ifs <;> rfl
  | cif e m => simp only [setCmdPath]; split_ifs <;> rfl
  | ax e => simp only [setCmdPath]; split_ifs <;> rfl
  | ay e => simp only [setCmdPath]; split_ifs <;> rfl
  | bst e => simp only [setCmdPath]; split_ifs <;> rfl
  | pwr e => simp only [setCmdPath]; split_ifs <;> rfl
  | mrk m => rfl
  | mv => rfl
  | bir => rfl
  | att => rfl
  | ret => rfl

/-- Replacing an expression inside a command leaves its branch target
unchanged. -/
theorem targetOf?_setCmdPath (c : Cmd) (j : Nat) (rest : List Nat) (n : Expr) :
    targetOf? (setCmdPath c j rest n) = targetOf? c := by
  cases c with
  | set a b => simp only [setCmdPath]; split_ifs <;> rfl
  | cif e m => simp only [setCmdPath]; split_ifs <;> rfl
  | ax e => simp only [setCmdPath]; split_ifs <;> rfl
  | ay e => simp only [setCmdPath]; split_ifs <;> rfl
  | bst e => simp only [setCmdPath]; split_ifs <;> rfl
  | pwr e => simp only [setCmdPath]; split_ifs <;> rfl
  | mrk m => rfl
  | mv => rfl
  | bir => rfl
  | att => rfl
  | ret => rfl

/-- Overwriting a list entry by one with the same projection value leaves
the projected list unchanged. -/
theorem filterMap_set_eq {α β : Type} {f : α → Option β} {l : List α}
    {i : Nat} {a : α} (b : α)
    (hget : l[i]? = some a) (hfb : f b = f a) :
    (l.set i b).filterMap f = l.filterMap f := by
  induction l generalizing i with
  | nil => simp at hget
  | cons x xs ih =>
    cases i with
    | zero =>
      simp at hget
      subst hget
      cases hfa : f x <;> simp [List.filterMap_cons, hfb, hfa]
    | succ j =>
      simp at hget
      cases hfx : f x <;> simp [List.filterMap_cons, hfx, ih hget]

/-- Expression-level mutation preserves the structural invariant: it swaps
one expression, never a command constructor or a mark argument. -/
theorem mutate_expression_inv (ch : MutChoice) (br : Brain) (addr : List Nat)
    (h : CodeOK br) : CodeOK (mutate_expression ch br addr) := by
  unfold mutate_expression
  cases addr with
  | nil => exact h
  | cons i rest =>
    cases rest with
    | nil => exact h
    | cons j rest2 =>
      cases hget : br.code[i]? with
      | none => simp only [hget]; exact h
      | some c =>
        simp only [hget]
        constructor
        · rw [show marksOf (br.code.set i (setCmdPath c j rest2 _)) = marksOf br.code from
            filterMap_set_eq _ hget (markOf?_setCmdPath ..)]
          exact h.mnd
        · rw [show targetsOf (br.code.set i (setCmdPath c j rest2 _)) = targetsOf br.code from
            filterMap_set_eq _ hget (targetOf?_setCmdPath ..)]
          exact h.tnd
        · rw [show marksOf (br.code.set i (setCmdPath c j rest2 _)) = marksOf br.code from
            filterMap_set_eq _ hget (markOf?_setCmdPath ..),
            show targetsOf (br.code.set i (setCmdPath c j rest2 _)) = targetsOf br.code from
            filterMap_set_eq _ hget (targetOf?_setCmdPath ..)]
          exact h.sub
        · rw [show marksOf (br.code.set i (setCmdPath c j rest2 _)) = marksOf br.code from
            filterMap_set_eq _ hget (markOf?_setCmdPath ..)]
          exact h.ide

/-- Dropping a head command that is neither a mark nor a branch preserves
the invariant. -/
theorem InvC.uncons {c : Cmd} {code : List Cmd} {ids : Finset Nat}
    (hm : markOf? c = none) (ht : targetOf? c = none)
    (h : InvC (c :: code) ids) : InvC code ids := by
  have h1 : marksOf (c :: code) = marksOf code := by
    rw [marksOf_cons, hm]
  have h2 : targetsOf (c :: code) = targetsOf code := by
    rw [targetsOf_cons, ht]
  exact ⟨h1 ▸ h.mnd, h2 ▸ h.tnd, fun t hin => h1 ▸ h.sub t (h2 ▸ hin),
    h.ide.trans (by rw [h1])⟩

/-- Deleting an `'if'` together with (one occurrence of) its paired mark and
freeing the id preserves the invariant. -/
theorem InvC.delete_cif {e : Expr} {m : Nat} {code : List Cmd}
    {ids : Finset Nat} (h : InvC (Cmd.cif e m :: code) ids) :
    InvC (code.erase (Cmd.mrk m)) (ids.erase m) := by
  have hmarks_full : marksOf (Cmd.cif e m :: code) = marksOf code := by
    rw [marksOf_cons]
    rfl
  have htargets_full : targetsOf (Cmd.cif e m :: code) = m :: targetsOf code := by
    rw [targetsOf_cons]
    rfl
  have hmt : m ∈ targetsOf (Cmd.cif e m :: code) := by
    rw [htargets_full]
    exact List.mem_cons_self m _
  have hmm : m ∈ marksOf code := hmarks_full ▸ h.sub m hmt
  have hmem : Cmd.mrk m ∈ code := mem_marksOf.mp hmm
  have hperm : code.Perm (Cmd.mrk m :: code.erase (Cmd.mrk m)) :=
    List.perm_cons_erase hmem
  have hmk : (marksOf code).Perm (m :: marksOf (code.erase (Cmd.mrk m))) := by
    have := hperm.filterMap markOf?
    rw [show (Cmd.mrk m :: code.erase (Cmd.mrk m)).filterMap markOf? =
        m :: marksOf (code.erase (Cmd.mrk m)) from by
        rw [← marksOf, marksOf_cons]; rfl] at this
    exact this
  have htp : (targetsOf code).Perm (targetsOf (code.erase (Cmd.mrk m))) := by
    have := hperm.filterMap targetOf?
    rw [show (Cmd.mrk m :: code.erase (Cmd.mrk m)).filterMap targetOf? =
        targetsOf (code.erase (Cmd.mrk m)) from by
        rw [← targetsOf, targetsOf_cons]; rfl] at this
    exact this
  have hmnd : (m :: marksOf (code.erase (Cmd.mrk m))).Nodup :=
    hmk.nodup_iff.mp (hmarks_full ▸ h.mnd)
  have hm_notin : m ∉ marksOf (code.erase (Cmd.mrk m)) :=
    (List.nodup_cons.mp hmnd).1
  have htnd_full : (m :: targetsOf code).Nodup := htargets_full ▸ h.tnd
  have hm_nott : m ∉ targetsOf code := (List.nodup_cons.mp htnd_full).1
  refine ⟨(List.nodup_cons.mp hmnd).2,
    htp.nodup_iff.mp (List.nodup_cons.mp htnd_full).2, ?_, ?_⟩
  · intro t hin
    have ht1 : t ∈ targetsOf code := htp.mem_iff.mpr hin
    have ht2 : t ∈ targetsOf (Cmd.cif e m :: code) := by
      rw [htargets_full]
      exact List.mem_cons_of_mem _ ht1
    have ht3 : t ∈ marksOf code := hmarks_full ▸ h.sub t ht2
    have ht4 : t ∈ m :: marksOf (code.erase (Cmd.mrk m)) := hmk.mem_iff.mp ht3
    rcases List.mem_cons.mp ht4 with h' | h'
    · exact absurd (h' ▸ ht1) hm_nott
    · exact h'
  · have hide : ids = (marksOf code).toFinset := h.ide.trans (by rw [hmarks_full])
    rw [hide, perm_toFinset hmk, List.toFinset_cons,
      Finset.erase_insert (by simpa using hm_notin)]

/-- What `add_rand_mark` does: the resulting brain satisfies the invariant,
its code is a permutation of the fresh mark consed on the old code, the
fresh id was unused, and branch targets are untouched. -/
theorem add_rand_mark_spec (pos : Nat) (br : Brain) (h : CodeOK br) :
    CodeOK (add_rand_mark pos br).2 ∧
    (add_rand_mark pos br).1 ∉ marksOf br.code ∧
    (add_rand_mark pos br).1 ∈ marksOf (add_rand_mark pos br).2.code ∧
    ((targetsOf (add_rand_mark pos br).2.code).Perm (targetsOf br.code)) := by
  set f := freshMark br.markIds with hf
  have hfm : f ∉ br.markIds := freshMark_not_mem br.markIds
  have hfm' : f ∉ marksOf br.code := by
    intro hin
    exact hfm (h.ide ▸ List.mem_toFinset.mpr hin)
  have hperm : ((add_rand_mark pos br).2.code).Perm (Cmd.mrk f :: br.code) :=
    insertAt_perm _ _ _
  have hmarks_cons : marksOf (Cmd.mrk f :: br.code) = f :: marksOf br.code := by
    rw [marksOf_cons]
    rfl
  have htargets_cons : targetsOf (Cmd.mrk f :: br.code) = targetsOf br.code := by
    rw [targetsOf_cons]
    rfl
  have hinv : InvC (Cmd.mrk f :: br.code) (insert f br.markIds) := by
    refine ⟨?_, ?_, ?_, ?_⟩
    · rw [hmarks_cons]
      exact List.Nodup.cons hfm' h.mnd
    · rw [htargets_cons]
      exact h.tnd
    · intro t hin
      rw [htargets_cons] at hin
      rw [hmarks_cons]
      exact List.mem_cons_of_mem _ (h.sub t hin)
    · rw [hmarks_cons, List.toFinset_cons, h.ide]
  have hok : CodeOK (add_rand_mark pos br).2 := InvC.perm hperm.symm hinv
  refine ⟨hok, hfm', ?_, ?_⟩
  · have : f ∈ marksOf (Cmd.mrk f :: br.code) := by
      rw [hmarks_cons]
      exact List.mem_cons_self f _
    exact ((hperm.filterMap markOf?).mem_iff).mpr this
  · have := hperm.filterMap targetOf?
    rw [show (Cmd.mrk f :: br.code).filterMap targetOf? = targetsOf br.code from
      htargets_cons] at this
    exact this

/-- Every candidate of `rand_command` either carries no mark and no target,
or is the branch command targeting the freshly inserted mark. -/
theorem rand_cmd_pick_cases (k : Nat) (v1 v2 : VC) (mid : Nat) :
    (markOf? (rand_cmd_pick k v1 v2 mid) = none ∧
     targetOf? (rand_cmd_pick k v1 v2 mid) = none) ∨
    (∃ e, rand_cmd_pick k v1 v2 mid = .cif e mid) := by
  rcases k with _ | _ | _ | _ | _ | _ | _ | _ | _ | _ | k
  · exact Or.inl ⟨rfl, rfl⟩
  · exact Or.inr ⟨rand_value v1, rfl⟩
  · exact Or.inl ⟨rfl, rfl⟩
  · exact Or.inl ⟨rfl, rfl⟩
  · exact Or.inl ⟨rfl, rfl⟩
  · exact Or.inl ⟨rfl, rfl⟩
  · exact Or.inl ⟨rfl, rfl⟩
  · exact Or.inl ⟨rfl, rfl⟩
  · exact Or.inl ⟨rfl, rfl⟩
  · exact Or.inl ⟨rfl, rfl⟩
  · exact Or.inl ⟨rfl, rfl⟩

/-- Inserting the command generated by `rand_command` (after its mark
insertion) anywhere in the code preserves the invariant. -/
theorem rand_command_inv (cc : CC) (br : Brain) (idx : Nat) (h : CodeOK br) :
    CodeOK { (rand_command cc br).2 with
             code := insertAt (rand_command cc br).2.code idx
               (rand_command cc br).1 } := by
  obtain ⟨h2, hfm, hmem, htp⟩ := add_rand_mark_spec cc.markPos br h
  have hperm : (insertAt (rand_command cc br).2.code idx
      (rand_command cc br).1).Perm
      ((rand_command cc br).1 :: (rand_command cc br).2.code) :=
    insertAt_perm _ _ _
  refine InvC.perm hperm.symm ?_
  show InvC (rand_cmd_pick (cc.pick % 10) cc.v1 cc.v2 (add_rand_mark cc.markPos br).1 ::
      (add_rand_mark cc.markPos br).2.code) (add_rand_mark cc.markPos br).2.markIds
  rcases rand_cmd_pick_cases (cc.pick % 10) cc.v1 cc.v2 (add_rand_mark cc.markPos br).1
    with ⟨hm, ht⟩ | ⟨e, hce⟩
  · -- a command with no mark and no target changes nothing
    refine ⟨?_, ?_, ?_, ?_⟩
    · rw [marksOf_cons, hm]
      exact h2.mnd
    · rw [targetsOf_cons, ht]
      exact h2.tnd
    · intro t hin
      rw [targetsOf_cons, ht] at hin
      rw [marksOf_cons, hm]
      exact h2.sub t hin
    · rw [marksOf_cons, hm]
      exact h2.ide
  · -- the branch command targeting the freshly inserted mark
    rw [hce]
    have hmc : marksOf (Cmd.cif e (add_rand_mark cc.markPos br).1 ::
        (add_rand_mark cc.markPos br).2.code) =
        marksOf (add_rand_mark cc.markPos br).2.code := by
      simp [marksOf_cons, markOf?]
    have htc : targetsOf (Cmd.cif e (add_rand_mark cc.markPos br).1 ::
        (add_rand_mark cc.markPos br).2.code) =
        (add_rand_mark cc.markPos br).1 ::
          targetsOf (add_rand_mark cc.markPos br).2.code := by
      simp [targetsOf_cons, targetOf?]
    have hft : (add_rand_mark cc.markPos br).1 ∉
        targetsOf (add_rand_mark cc.markPos br).2.code := by
      intro hin
      exact hfm (h.sub _ (htp.mem_iff.mp hin))
    refine ⟨?_, ?_, ?_, ?_⟩
    · rw [hmc]
      exact h2.mnd
    · rw [htc]
      exact List.Nodup.cons hft h2.tnd
    · intro t hin
      rw [htc] at hin
      rw [hmc]
      rcases List.mem_cons.mp hin with h' | h'
      · exact h' ▸ hmem
      · exact h2.sub t h'
    · rw [hmc]
      exact h2.ide

/-- Command-level mutation preserves the structural invariant for any
command site (`flatten` never offers a `mrk` command as a site). -/
theorem mutate_command_inv (ch : MutChoice) (br : Brain) (i : Nat) {c : Cmd}
    (hget : br.code[i]? = some c) (hnm : ∀ m, c ≠ .mrk m)
    (h : CodeOK br) : CodeOK (mutate_command ch br i) := by
  unfold mutate_command
  rw [hget]
  by_cases hdel : ch.del
  · simp only [hdel, if_true]
    have hperm := eraseIdx_perm hget
    have hcons : InvC (c :: br.code.eraseIdx i) br.markIds := InvC.perm hperm h
    cases c with
    | cif e m => exact InvC.delete_cif hcons
    | mrk m => exact absurd rfl (hnm m)
    | set a b => exact hcons.uncons (by rfl) (by rfl)
    | ax e => exact hcons.uncons (by rfl) (by rfl)
    | ay e => exact hcons.uncons (by rfl) (by rfl)
    | bst e => exact hcons.uncons (by rfl) (by rfl)
    | pwr e => exact hcons.uncons (by rfl) (by rfl)
    | mv => exact hcons.uncons (by rfl) (by rfl)
    | bir => exact hcons.uncons (by rfl) (by rfl)
    | att => exact hcons.uncons (by rfl) (by rfl)
    | ret => exact hcons.uncons (by rfl) (by rfl)
  · simp only [hdel, if_false]
    exact rand_command_inv ch.cc br (i + ch.after % 2) h

/-- One `mutate` call preserves the structural invariant, whatever random
draws it consumes. -/
theorem mutate_inv (ch : MutChoice) {br : Brain} (h : CodeOK br) :
    CodeOK (br.mutate ch) := by
  unfold Brain.mutate
  by_cases hfl : (flat_code br.code).isEmpty
  · simp only [hfl, if_true]
    exact h
  · simp only [hfl, if_false]
    have hpos : 0 < (flat_code br.code).length := by
      cases hc : flat_code br.code with
      | nil => rw [hc] at hfl; simp [List.isEmpty] at hfl
      | cons x xs => simp [hc]
    have hlt : ch.site % (flat_code br.code).length < (flat_code br.code).length :=
      Nat.mod_lt _ hpos
    have hmem : (flat_code br.code).getD (ch.site % (flat_code br.code).length)
        ⟨.sval, []⟩ ∈ flat_code br.code := by
      rw [List.getD_eq_getElem _ _ hlt]
      exact List.getElem_mem _
    generalize hsite : (flat_code br.code).getD
      (ch.site % (flat_code br.code).length) ⟨.sval, []⟩ = s at hmem ⊢
    obtain ⟨k, addr⟩ := s
    cases k with
    | scmd =>
      cases addr with
      | nil => exact h
      | cons i rest =>
        cases rest with
        | nil =>
          obtain ⟨i2, c, haddr, hget, hnm⟩ := flat_code_scmd hmem rfl
          have : i = i2 := by
            simpa using congrArg (fun l => l.headD 0) haddr
          subst this
          exact mutate_command_inv ch br i hget hnm h
        | cons j rest2 => exact h
    | soper => exact mutate_expression_inv ch br _ h
    | sval => exact mutate_expression_inv ch br _ h

/-- The starting program is structurally valid. -/
theorem starting_code_ok : CodeOK (mkBrain STARTING_CODE) := by
  refine ⟨?_, ?_, ?_, rfl⟩ <;> decide

/-- C4: every brain reachable from the valid starting program by mutation
steps (and inheritance) has pairwise-distinct mark ids, and every branch
target matches exactly one mark instruction. -/
theorem c4_reachable_code_valid (br : Brain) (h : ReachableBrain br) :
    (marksOf br.code).Nodup ∧
    ∀ t ∈ targetsOf br.code, (marksOf br.code).count t = 1 := by
  have hok : CodeOK br := by
    induction h with
    | start => exact starting_code_ok
    | mutStep ch _ ih => exact mutate_inv ch ih
    | born _ ih => exact ⟨ih.mnd, ih.tnd, ih.sub, rfl⟩
  exact ⟨hok.mnd, fun t ht =>
    List.count_eq_one_of_mem hok.mnd (hok.sub t ht)⟩

/-- A concrete mutation choice: deletes the site chosen by index 0 (the
starting `'if'` command together with its mark). -/
def ch0 : MutChoice :=
  ⟨0, true, 0, ⟨0, 0, ⟨0, 0, 0⟩, ⟨0, 0, 0⟩⟩, false, ⟨0, 0, 0⟩, ⟨0, ⟨0, 0, 0⟩, ⟨0, 0, 0⟩⟩⟩

/-- C4 (witness): the invariant theorem applied to the brain obtained from
the starting program by one concrete mutation. -/
theorem c4_reachable_code_valid_witness :
    ReachableBrain ((mkBrain STARTING_CODE).mutate ch0) ∧
    (marksOf ((mkBrain STARTING_CODE).mutate ch0).code).Nodup :=
  ⟨.mutStep ch0 .start,
   (c4_reachable_code_valid _ (.mutStep ch0 .start)).1⟩

/-! ## Constants of `germ_tank.py` (floats as exact rationals) -/

def TANK_WIDTH : Nat := 225
def TANK_HEIGHT : Nat := 150
def TANK_WRAP : Bool := true
def MAX_FOOD_DENSITY : ℚ := ⟨1, 50, by decide, by decide⟩        -- 0.02
def FOOD_GROWTH_RATE : ℚ := ⟨1, 20, by decide, by decide⟩        -- 0.05
def FOOD_ENERGY : ℚ := 20
def MAX_GERM_ENERGY : ℚ := 100
def INIT_GERM_ENERGY : ℚ := 30
def GERM_ABSORB_RATE : ℚ := ⟨1, 2, by decide, by decide⟩         -- 0.5
def GERM_BASE_ABSORB : ℚ := 5
def GERM_STAMINA : ℚ := 10
def GERM_STAMINA_REGEN : ℚ := ⟨1, 2, by decide, by decide⟩       -- 0.5
def GERM_VIEW_DIST : Int := 10
def UPKEEP_COST : ℚ := ⟨1, 2, by decide, by decide⟩              -- 0.5
def BURST_COST : ℚ := 1
def ATTACK_BASE_COST : ℚ := 1
def ATTACK_POWER_COST : ℚ := ⟨1, 2, by decide, by decide⟩        -- 0.5
def BIRTH_COST : ℚ := 10

/-- `0.1`, the top-of-tank upkeep share. -/
def Q_TENTH : ℚ := ⟨1, 10, by decide, by decide⟩

/-- `1 / TANK_HEIGHT`, the depth normalization factor. -/
def INV_TANK_HEIGHT : ℚ := ⟨1, 150, by decide, by decide⟩

/-- The IEEE double `math.sqrt(2)` (the cost of a diagonal move). -/
def SQRT_TWO : ℚ := ⟨6369051672525773, 4503599627370496, by decide, by decide⟩

/-! ## Entities and the tank -/

/-- An organism record (the Python germ dict with a brain). -/
structure GermRec where
  brain : Brain
  alive : Bool
  x : Nat
  y : Nat
  energy : ℚ
  stamina : ℚ
  success : Bool
  burst : Bool
  pain : ℚ
deriving DecidableEq

/-- An entity: an organism, or a food particle (a germ dict without a
brain, carrying only the alive flag and the position). -/
inductive Obj where
  | germ (g : GermRec)
  | food (alive : Bool) (x y : Nat)
deriving DecidableEq

def Obj.alive : Obj → Bool
  | .germ g => g.alive
  | .food a _ _ => a

def Obj.ox : Obj → Nat
  | .germ g => g.x
  | .food _ x _ => x

def Obj.oy : Obj → Nat
  | .germ g => g.y
  | .food _ _ y => y

/-- `not germ['brain']` — food particles are the entities without a brain. -/
def Obj.isFood : Obj → Bool
  | .germ _ => false
  | .food _ _ _ => true

/-- The tank state.  Python has no entity ids: `self.objects` holds the
dicts themselves and `self.tank` aliases them.  The embedding names each
dict by a `Nat` id; the grid stores ids and `objs`/`newGerms` keep the
list order of `self.objects` / `self.new_germs`. -/
structure Tank where
  grid : Nat → Nat → Option Nat
  objs : List (Nat × Obj)
  newGerms : List (Nat × Obj)
  foodCount : Int
  nextId : Nat

/-- Dereference an entity id (an alias into `objects` or `new_germs`). -/
def Tank.getObj (t : Tank) (id : Nat) : Option Obj :=
  ((t.objs ++ t.newGerms).find? (fun p => p.1 = id)).map (fun p => p.2)

/-- Overwrite the entity named `id` (mutation of the shared dict). -/
def Tank.setObj (t : Tank) (id : Nat) (o : Obj) : Tank :=
  { t with
    objs := t.objs.map (fun p => if p.1 = id then (p.1, o) else p),
    newGerms := t.newGerms.map (fun p => if p.1 = id then (p.1, o) else p) }

/-- Mutate the organism named `id` (no-op on food or a missing id). -/
def Tank.modifyGerm (t : Tank) (id : Nat) (f : GermRec → GermRec) : Tank :=
  { t with
    objs := t.objs.map (fun p =>
      match p.2 with
      | .germ g => if p.1 = id then (p.1, .germ (f g)) else p
      | _ => p),
    newGerms := t.newGerms.map (fun p =>
      match p.2 with
      | .germ g => if p.1 = id then (p.1, .germ (f g)) else p
      | _ => p) }

/-- Write one grid cell. -/
def Tank.setCell (t : Tank) (cx cy : Nat) (v : Option Nat) : Tank :=
  { t with grid := fun a b => if a = cx ∧ b = cy then v else t.grid a b }

/-- `GermTank.get_relative_loc`: wrap on the x axis (one width), reject a
y outside the tank; `none` is the Python `(-1, -1)`. -/
def get_relative_loc (x y : Nat) (dx dy : Int) : Option (Nat × Nat) :=
  match (if TANK_WRAP then
      some (if (x : Int) + dx ≥ (TANK_WIDTH : Int) then (x : Int) + dx - TANK_WIDTH
            else if (x : Int) + dx < 0 then (x : Int) + dx + TANK_WIDTH
            else (x : Int) + dx)
    else if (x : Int) + dx ≥ (TANK_WIDTH : Int) ∨ (x : Int) + dx < 0 then none
    else some ((x : Int) + dx)) with
  | none => none
  | some nx =>
    if (y : Int) + dy ≥ (TANK_HEIGHT : Int) ∨ (y : Int) + dy < 0 then none
    else some (nx.toNat, ((y : Int) + dy).toNat)

/-- Reading `self.tank[tgt_x][tgt_y]` on a Python `(-1, -1)` result uses
negative indexing: it reads the cell `(TANK_WIDTH-1, TANK_HEIGHT-1)`. -/
def Tank.cellPy (t : Tank) (r : Option (Nat × Nat)) : Option Nat :=
  match r with
  | some (cx, cy) => t.grid cx cy
  | none => t.grid (TANK_WIDTH - 1) (TANK_HEIGHT - 1)

/-- The 8-neighborhood offsets in the scan order of the Python loops. -/
def neighborLocs : List (Int × Int) :=
  [(-1, -1), (-1, 0), (-1, 1), (0, -1), (0, 1), (1, -1), (1, 0), (1, 1)]

/-- `GermTank.dine`: the germ consumes the adjacent live food particles
found by the 8-neighborhood scan (the loop has no break, so every live
adjacent particle is consumed, `FOOD_ENERGY` each). -/
def dine (t : Tank) (id : Nat) : Tank :=
  neighborLocs.foldl (fun acc d =>
    match acc.getObj id with
    | some (.germ g) =>
      match acc.cellPy (get_relative_loc g.x g.y d.1 d.2) with
      | some tid =>
        match acc.getObj tid with
        | some (.food true fx fy) =>
          (acc.modifyGerm id (fun g0 => { g0 with energy := g0.energy + FOOD_ENERGY
            })).setObj tid (.food false fx fy)
        | _ => acc
      | none => acc
    | _ => acc) t

/-- Stable insertion into a sorted list (`a` goes before the first element
it does not strictly follow), matching Python's stable `sorted`. -/
def insSorted (le : α → α → Bool) (a : α) : List α → List α
  | [] => [a]
  | b :: bs => if le a b then a :: b :: bs else b :: insSorted le a bs

/-- Stable insertion sort used for the 8-candidate birth-location order. -/
def isortBy (le : α → α → Bool) : List α → List α
  | [] => []
  | x :: xs => insSorted le x (isortBy le xs)

/-- Merge of two sorted lists (left element first on ties, keeping the
sort stable); the fuel argument makes the recursion structural. -/
def mergeF (le : α → α → Bool) : Nat → List α → List α → List α
  | 0, xs, ys => xs ++ ys
  | _ + 1, [], ys => ys
  | _ + 1, x :: xs, [] => x :: xs
  | f + 1, x :: xs, y :: ys =>
    if le x y then x :: mergeF le f xs (y :: ys) else y :: mergeF le f (x :: xs) ys

def mergePairs (le : α → α → Bool) : List (List α) → List (List α)
  | a :: b :: rest => mergeF le (a.length + b.length) a b :: mergePairs le rest
  | l => l

def mergeAll (le : α → α → Bool) : Nat → List (List α) → List α
  | 0, ls => ls.flatten
  | _ + 1, [] => []
  | _ + 1, [l] => l
  | f + 1, ls => mergeAll le f (mergePairs le ls)

/-- Bottom-up merge sort (a stable sort, so it agrees with Python's
`sorted` — and the view-location keys are pairwise distinct anyway). -/
def msort (le : α → α → Bool) (l : List α) : List α :=
  mergeAll le l.length (l.map (fun a => [a]))

/-- Comparison by the `sorted` key `(dist, (i, j))` of the view-location
construction; `sqrt` is strictly monotone and exact on the integers in
range, so comparing squared distances is the same order. -/
def viewKeyLe (p q : Int × Int) : Bool :=
  let dp := p.1 * p.1 + p.2 * p.2
  let dq := q.1 * q.1 + q.2 * q.2
  dp < dq || (dp == dq && (p.1 < q.1 || (p.1 == q.1 && p.2 ≤ q.2)))

/-- The shared `view_locs` table: all offsets of the `-50..50` square scan
within `GERM_VIEW_DIST` of the origin (the origin excluded), sorted by
distance with ties broken by the offset pair. -/
def view_locs : List (Int × Int) :=
  msort viewKeyLe
    ((List.range 101).flatMap (fun a =>
      (List.range 101).filterMap (fun b =>
        let i : Int := (a : Int) - 50
        let j : Int := (b : Int) - 50
        if (¬(i = 0 ∧ j = 0)) ∧ i * i + j * j ≤ GERM_VIEW_DIST * GERM_VIEW_DIST
        then some (i, j) else none)))

/-- `GermTank.get_view` before the germ/food partition: for each view
location in order, the wrapped relative offset (`tgt - origin`) and the
food flag of the live occupant, if any. -/
def get_view (t : Tank) (x y : Nat) : List (Int × Int × Bool) :=
  view_locs.filterMap (fun d =>
    match get_relative_loc x y d.1 d.2 with
    | some (tx, ty) =>
      match t.grid tx ty with
      | some tid =>
        match t.getObj tid with
        | some o =>
          if o.alive then some ((tx : Int) - x, (ty : Int) - y, o.isFood)
          else none
        | none => none
      | none => none
    | none => none)

/-- The two view lists handed to the interpreter: germs then food, each
preserving the distance order. -/
def viewState (t : Tank) (x y : Nat) : List (Int × Int) × List (Int × Int) :=
  let objs := get_view t x y
  (objs.filterMap (fun o => if o.2.2 then none else some (o.1, o.2.1)),
   objs.filterMap (fun o => if o.2.2 then some (o.1, o.2.1) else none))

/-- `GermTank.get_birth_loc`: scan the 8 neighbors ordered by Manhattan
distance to the requested direction (stable w.r.t. the fixed scan order)
and return the first in-bounds free cell. -/
def get_birth_loc (t : Tank) (x y : Nat) (dx dy : Int) : Option (Nat × Nat) :=
  let locs := isortBy
    (fun p q => (dx - p.1).natAbs + (dy - p.2).natAbs ≤
                (dx - q.1).natAbs + (dy - q.2).natAbs)
    neighborLocs
  locs.findSome? (fun d =>
    match get_relative_loc x y d.1 d.2 with
    | some (nx, ny) => if (t.grid nx ny).isSome then none else some (nx, ny)
    | none => none)

/-- Energy cost of a move: the Euclidean norm of the requested direction
(`sqrt(dx^2 + dy^2)` on direction components in `{-1, 0, 1}`). -/
def moveCost (mx my : Int) : ℚ :=
  if mx ≠ 0 ∧ my ≠ 0 then SQRT_TWO
  else if mx = 0 ∧ my = 0 then 0 else 1

/-- Whether the request dict carries a truthy `'burst'` key. -/
def requestBurst : Request → Bool
  | .move _ _ b => b
  | .birth _ _ b => b
  | .attack _ _ b _ => b
  | _ => false

/-- Errors that can escape a tick: a re-raised interpreter fault, or the
`KeyError` raised when an attack hits a food particle (food dicts have no
`'stamina'` key). -/
inductive TankErr where
  | brainFault (f : Fault)
  | missingKey
deriving DecidableEq

/-- `GermBrain.__init__` for a child: clone the parent code and apply `n`
mutation draws. -/
def applyMutations (n : Nat) (chs : Nat → MutChoice) (br : Brain) : Brain :=
  (List.range n).foldl (fun b i => b.mutate (chs i)) br

/-- `GermTank.process_request` for the germ `id` at `(x, y)`:
burst accounting, then resolution of the requested action. -/
def process_request (t : Tank) (id : Nat) (req : Request) (x y : Nat)
    (mutN : Nat) (mutChs : Nat → MutChoice) : Except TankErr Tank :=
  let t1 :=
    if requestBurst req then
      t.modifyGerm id (fun g => { g with energy := g.energy - BURST_COST, burst := true })
    else t.modifyGerm id (fun g => { g with burst := false })
  match req with
  | .empty => .ok (t1.modifyGerm id (fun g => { g with success := true }))
  | .halt =>
    .ok (t1.modifyGerm id (fun g =>
      { g with success := false, energy := g.energy - 1 }))
  | .move mx my _ =>
    match get_relative_loc x y mx my with
    | none => .ok (t1.modifyGerm id (fun g => { g with success := false }))
    | some (nx, ny) =>
      if (t1.grid nx ny).isSome then
        .ok (t1.modifyGerm id (fun g => { g with success := false }))
      else
        let t2 := t1.modifyGerm id (fun g =>
          { g with success := true, energy := g.energy - moveCost mx my,
                   x := nx, y := ny })
        .ok ((t2.setCell nx ny (some id)).setCell x y none)
  | .birth bx bdy _ =>
    match get_birth_loc t1 x y bx bdy with
    | none => .ok (t1.modifyGerm id (fun g => { g with success := false }))
    | some (nx, ny) =>
      match t1.getObj id with
      | some (.germ g1) =>
        if g1.energy < INIT_GERM_ENERGY + BIRTH_COST + 1 then
          .ok (t1.modifyGerm id (fun g => { g with success := false }))
        else
          let t2 := t1.modifyGerm id (fun g =>
            { g with success := true,
                     energy := g.energy - (INIT_GERM_ENERGY + BIRTH_COST) })
          let child : GermRec :=
            ⟨applyMutations mutN mutChs (mkBrain g1.brain.code), true, nx, ny,
             INIT_GERM_ENERGY, GERM_STAMINA, true, false, 0⟩
          .ok { (t2.setCell nx ny (some t2.nextId)) with
                newGerms := t2.newGerms ++ [(t2.nextId, .germ child)],
                nextId := t2.nextId + 1 }
      | _ => .ok t1
  | .attack adx ady _ pw =>
    let cost := ATTACK_BASE_COST + ATTACK_POWER_COST * (pw : ℚ)
    match t1.cellPy (get_relative_loc x y adx ady) with
    | none => .ok (t1.modifyGerm id (fun g => { g with success := false }))
    | some tid =>
      match t1.getObj tid with
      | none => .ok (t1.modifyGerm id (fun g => { g with success := false }))
      | some tobj =>
        match t1.getObj id with
        | some (.germ g1) =>
          if ¬tobj.alive ∨ pw = 0 ∨ cost > g1.energy then
            .ok (t1.modifyGerm id (fun g => { g with success := false }))
          else
            match tobj with
            | .food _ _ _ => .error .missingKey
            | .germ _ =>
              let t2 := t1.modifyGerm id (fun g =>
                { g with success := true, energy := g.energy - cost })
              let t3 := t2.modifyGerm tid (fun g =>
                { g with stamina := g.stamina - pw, pain := g.pain + pw })
              match t3.getObj tid with
              | some (.germ tg3) =>
                if tg3.stamina ≤ 0 then
                  let t4 := t3.modifyGerm id (fun g =>
                    { g with energy := g.energy +
                        ((tg3.energy - GERM_BASE_ABSORB) * GERM_ABSORB_RATE +
                          GERM_BASE_ABSORB) })
                  .ok (t4.modifyGerm tid (fun g => { g with alive := false }))
                else .ok t3
              | _ => .ok t3
        | _ => .ok t1

/-! ## The tick (`GermTank.update`) -/

/-- All random draws a tick consumes, stream-indexed: the spontaneous-death
roll outcome (`random() < DEATH_RATE`), the food-move direction draw, the
food-regrowth probe cells, and the mutation count and mutation draws of
each birth. -/
structure Oracle where
  death : Nat → Bool
  dir : Nat → Nat
  regrow : Nat → Nat × Nat
  mutN : Nat → Nat
  mutCh : Nat → Nat → MutChoice

/-- The action phase of one organism's turn: dine, compute the view, run
the brain on the state snapshot, resolve the request, then reset pain and
re-check the energy bounds. -/
def germAct (o : Oracle) (k : Nat) (t : Tank) (id : Nat) : Except TankErr Tank :=
  match (dine t id).getObj id with
  | some (.germ g) =>
    match g.brain.run ⟨g.energy, 1 - 9 * Q_TENTH * ((g.y : ℚ) * INV_TANK_HEIGHT),
        g.stamina, g.pain, g.success, (viewState (dine t id) g.x g.y).1,
        (viewState (dine t id) g.x g.y).2⟩ with
    | .error f => .error (.brainFault f)
    | .ok out =>
      match process_request ((dine t id).modifyGerm id (fun g0 =>
          { g0 with brain := { g0.brain with memory := out.memv } }))
          id out.req g.x g.y (o.mutN k) (o.mutCh k) with
      | .error e => .error e
      | .ok t3 =>
        .ok (t3.modifyGerm id (fun g0 =>
          let g1 : GermRec := { g0 with pain := 0 }
          let g2 : GermRec :=
            if g1.energy ≤ 0 then { g1 with alive := false } else g1
          { g2 with energy := min g2.energy MAX_GERM_ENERGY }))
  | _ => .ok t

/-- A live food particle's standard-turn move: one random direction, taken
exactly when the target cell is in bounds and free. -/
def foodMove (o : Oracle) (k : Nat) (t : Tank) (id : Nat) (fx fy : Nat) :
    Tank :=
  match get_relative_loc fx fy (neighborLocs.getD (o.dir k % 8) (0, 0)).1
      (neighborLocs.getD (o.dir k % 8) (0, 0)).2 with
  | none => t
  | some (nx, ny) =>
    if (t.grid nx ny).isSome then t
    else
      let t1 := t.setObj id (.food true nx ny)
      (t1.setCell nx ny (some id)).setCell fx fy none

/-- The body of the per-entity loop of `update` for one registry entry. -/
def stepObj (o : Oracle) (k : Nat) (burst_turn : Bool) (t : Tank) (id : Nat) :
    Except TankErr Tank :=
  match t.getObj id with
  | none => .ok t
  | some obj =>
    if ¬obj.alive then .ok t
    else
      match obj with
      | .germ g =>
        if ¬burst_turn then
          -- standard-turn upkeep
          if o.death k then
            .ok (t.modifyGerm id (fun g0 => { g0 with alive := false }))
          else
            let g1 : GermRec := { g with
              energy := g.energy -
                UPKEEP_COST * (Q_TENTH + 9 * Q_TENTH * ((g.y : ℚ) * INV_TANK_HEIGHT)),
              stamina := min (g.stamina + GERM_STAMINA_REGEN) GERM_STAMINA }
            if g1.energy ≤ 0 then
              .ok (t.setObj id (.germ { g1 with alive := false }))
            else
              germAct o k (t.setObj id
                (.germ { g1 with energy := min g1.energy MAX_GERM_ENERGY })) id
        else if g.burst then germAct o k t id
        else .ok t
      | .food _ fx fy =>
        if ¬burst_turn then .ok (foodMove o k t id fx fy)
        else .ok t

/-- Iterate the registry snapshot, threading the oracle counter. -/
def tickLoop (o : Oracle) (burst_turn : Bool) :
    List Nat → Nat → Tank → Except TankErr Tank
  | [], _, t => .ok t
  | id :: rest, k, t =>
    match stepObj o k burst_turn t id with
    | .error e => .error e
    | .ok t1 => tickLoop o burst_turn rest (k + 1) t1

/-- `GermTank.kill_germ`: drop the entity from the registry and clear its
grid cell (decrementing the food count for food). -/
def kill_germ (t : Tank) (id : Nat) : Tank :=
  match t.getObj id with
  | some obj =>
    { t with
      foodCount := if obj.isFood then t.foodCount - 1 else t.foodCount,
      objs := t.objs.filter (fun p => p.1 ≠ id),
      newGerms := t.newGerms.filter (fun p => p.1 ≠ id),
      grid := fun a b => if a = obj.ox ∧ b = obj.oy then none else t.grid a b }
  | none => t

/-- End-of-tick reconciliation: remove the entities marked dead, then admit
the queued newborns into the registry. -/
def reconcile (t : Tank) : Tank :=
  let toKill := t.objs.filter (fun p => ¬p.2.alive)
  let t1 := toKill.foldl (fun acc p => kill_germ acc p.1) t
  { t1 with objs := t1.objs ++ t1.newGerms, newGerms := [] }

/-- `add_germ(x, y, None)`: place a new food particle (callers pre-check
that the cell is free). -/
def add_food (t : Tank) (x y : Nat) : Tank :=
  { t with
    grid := fun a b => if a = x ∧ b = y then some t.nextId else t.grid a b,
    objs := t.objs ++ [(t.nextId, .food true x y)],
    foodCount := t.foodCount + 1,
    nextId := t.nextId + 1 }

/-- The food-regrowth probe loop (`for i in range(1000)` with early break
once enough particles were placed). -/
def regrowLoop (o : Oracle) (toAdd : ℚ) :
    Nat → Nat → Int → Tank → Tank
  | 0, _, _, t => t
  | n + 1, i, c, t =>
    let p := o.regrow i
    let x := p.1 % TANK_WIDTH
    let y := p.2 % TANK_HEIGHT
    if (t.grid x y).isSome then regrowLoop o toAdd n (i + 1) c t
    else
      let t1 := add_food t x y
      if ((c + 1 : Int) : ℚ) ≥ toAdd then t1
      else regrowLoop o toAdd n (i + 1) (c + 1) t1

/-- Food regrowth up to the density cap. -/
def regrowFood (o : Oracle) (t : Tank) : Tank :=
  let maxFood : ℚ := (TANK_WIDTH : ℚ) * (TANK_HEIGHT : ℚ) * MAX_FOOD_DENSITY
  if (t.foodCount : ℚ) < maxFood then
    regrowLoop o (min (FOOD_GROWTH_RATE * maxFood) (maxFood - (t.foodCount : ℚ)))
      1000 0 0 t
  else t

/-- `GermTank.update`: one tick.  The registry is iterated once (ids
captured at tick start); then dead entities are removed, newborns admitted,
and food regrown. -/
def update (o : Oracle) (burst_turn : Bool) (t : Tank) : Except TankErr Tank :=
  match tickLoop o burst_turn (t.objs.map Prod.fst) 0 t with
  | .error e => .error e
  | .ok t1 =>
    .ok (regrowFood o (reconcile t1))

/-! ## Store lemmas -/

/-- `find?` commutes with a map that preserves the key component. -/
theorem find?_map_fst {l : List (Nat × Obj)} {F : Nat × Obj → Nat × Obj}
    (hf : ∀ p, (F p).1 = p.1) (id : Nat) :
    (l.map F).find? (fun p => p.1 = id) =
      (l.find? (fun p => p.1 = id)).map F := by
  induction l with
  | nil => rfl
  | cons x xs ih =>
    by_cases hx : x.1 = id
    · rw [List.map_cons,
        List.find?_cons_of_pos _ (by simpa [hf x] using hx),
        List.find?_cons_of_pos _ (by simpa using hx)]
      rfl
    · rw [List.map_cons,
        List.find?_cons_of_neg _ (by simpa [hf x] using hx),
        List.find?_cons_of_neg _ (by simpa using hx), ih]

/-- The entry transformation applied by `Tank.modifyGerm`. -/
def mgF (id : Nat) (f : GermRec → GermRec) (p : Nat × Obj) : Nat × Obj :=
  match p.2 with
  | .germ g => if p.1 = id then (p.1, .germ (f g)) else p
  | _ => p

theorem mgF_fst (id : Nat) (f : GermRec → GermRec) (p : Nat × Obj) :
    (mgF id f p).1 = p.1 := by
  rcases p with ⟨i, o⟩
  cases o with
  | germ g => by_cases hi : i = id <;> simp [mgF, hi]
  | food a x y => simp [mgF]

theorem modifyGerm_objs (t : Tank) (id : Nat) (f : GermRec → GermRec) :
    (t.modifyGerm id f).objs = t.objs.map (mgF id f) := by
  unfold Tank.modifyGerm mgF
  rfl

theorem modifyGerm_newGerms (t : Tank) (id : Nat) (f : GermRec → GermRec) :
    (t.modifyGerm id f).newGerms = t.newGerms.map (mgF id f) := by
  unfold Tank.modifyGerm mgF
  rfl

theorem modifyGerm_grid (t : Tank) (id : Nat) (f : GermRec → GermRec) :
    (t.modifyGerm id f).grid = t.grid := rfl

theorem modifyGerm_getObj (t : Tank) (id j : Nat) (f : GermRec → GermRec) :
    (t.modifyGerm id f).getObj j = ((t.objs ++ t.newGerms).find?
      (fun p => p.1 = j)).map (fun p => (mgF id f p).2) := by
  unfold Tank.getObj
  rw [modifyGerm_objs, modifyGerm_newGerms, ← List.map_append,
    find?_map_fst (mgF_fst id f) j, Option.map_map]
  rfl

/-- Reading back another id after `modifyGerm`. -/
theorem modifyGerm_getObj_ne (t : Tank) (id j : Nat) (f : GermRec → GermRec)
    (hne : j ≠ id) : (t.modifyGerm id f).getObj j = t.getObj j := by
  rw [modifyGerm_getObj]
  unfold Tank.getObj
  cases hfind : (t.objs ++ t.newGerms).find? (fun p => p.1 = j) with
  | none => rfl
  | some p =>
    have hp : p.1 = j := by simpa using List.find?_some hfind
    rcases p with ⟨i, o⟩
    simp only [Option.map_some']
    cases o with
    | germ g =>
      have hij : i = j := hp
      simp only [mgF]
      rw [if_neg (by omega)]
    | food a x y => rfl

/-- Reading back the modified organism. -/
theorem modifyGerm_getObj_eq (t : Tank) (id : Nat) (f : GermRec → GermRec)
    {g : GermRec} (h : t.getObj id = some (.germ g)) :
    (t.modifyGerm id f).getObj id = some (.germ (f g)) := by
  rw [modifyGerm_getObj]
  unfold Tank.getObj at h
  cases hfind : (t.objs ++ t.newGerms).find? (fun p => p.1 = id) with
  | none => rw [hfind] at h; simp at h
  | some p =>
    have hp : p.1 = id := by simpa using List.find?_some hfind
    rw [hfind] at h
    rcases p with ⟨i, o⟩
    simp only [Option.map_some'] at h
    cases o with
    | germ g2 =>
      simp only [Option.some.injEq, Obj.germ.injEq] at h
      simp only [Option.map_some', mgF]
      rw [if_pos hp]
      simp [h]
    | food a x y => exact Obj.noConfusion (Option.some.inj h)

/-- The canonical grid of an entity list: each entry writes its own cell
(later entries win, as in the Python constructor loop). -/
def buildGrid (l : List (Nat × Obj)) : Nat → Nat → Option Nat :=
  l.foldl (fun gr p => fun a b =>
    if a = p.2.ox ∧ b = p.2.oy then some p.1 else gr a b)
    (fun _ _ => none)

/-! ## Concrete fixtures -/

/-- A constant oracle: no spontaneous deaths, direction draw 0, regrowth
probes at `(10, 10)`, no mutations. -/
def oracle0 : Oracle :=
  ⟨fun _ => false, fun _ => 0, fun _ => (10, 10), fun _ => 0, fun _ _ => ch0⟩

/-- A brain that immediately returns (no action). -/
def brain_ret : Brain := mkBrain [Cmd.ret]

/-! ## C6: `dine` consumes every adjacent live food particle -/

/-- The diner: a germ at `(10, 10)`. -/
def gDine : GermRec := ⟨brain_ret, true, 10, 10, 30, 10, true, false, 0⟩

/-- A world with one germ at `(10, 10)` and two live food particles on its
left and right. -/
def dineObjs : List (Nat × Obj) :=
  [(0, .germ gDine), (1, .food true 9 10), (2, .food true 11 10)]

def tankDine : Tank := ⟨buildGrid dineObjs, dineObjs, [], 2, 3⟩

/-- C6: with two live food particles adjacent, `dine` consumes *both*
(the scan has no break): the germ gains `2 × FOOD_ENERGY` and both
particles are marked dead — the docstring and the claim say exactly one. -/
theorem c6_dine_consumes_both :
    (dine tankDine 0).getObj 0 =
      some (.germ { gDine with energy := 30 + FOOD_ENERGY + FOOD_ENERGY }) ∧
    (dine tankDine 0).getObj 1 = some (.food false 9 10) ∧
    (dine tankDine 0).getObj 2 = some (.food false 11 10) := by
  refine ⟨by decide, by decide, by decide⟩


/-! ## C10: food movement on standard ticks -/

/-- The entry transformation applied by `Tank.setObj`. -/
def soF (id : Nat) (o : Obj) (p : Nat × Obj) : Nat × Obj :=
  if p.1 = id then (p.1, o) else p

theorem soF_fst (id : Nat) (o : Obj) (p : Nat × Obj) :
    (soF id o p).1 = p.1 := by
  by_cases hi : p.1 = id <;> simp [soF, hi]

theorem setObj_getObj_eq (t : Tank) (id : Nat) (o : Obj) {o0 : Obj}
    (h : t.getObj id = some o0) : (t.setObj id o).getObj id = some o := by
  unfold Tank.getObj at h ⊢
  unfold Tank.setObj
  simp only
  rw [show (t.objs.map (fun p => if p.1 = id then (p.1, o) else p) ++
      t.newGerms.map (fun p => if p.1 = id then (p.1, o) else p)) =
      (t.objs ++ t.newGerms).map (soF id o) from by
    rw [List.map_append]; rfl]
  rw [find?_map_fst (soF_fst id o) id]
  cases hfind : (t.objs ++ t.newGerms).find? (fun p => p.1 = id) with
  | none => rw [hfind] at h; simp at h
  | some p =>
    have hp : p.1 = id := by simpa using List.find?_some hfind
    simp only [Option.map_some', soF, if_pos hp]

theorem setObj_grid (t : Tank) (id : Nat) (o : Obj) :
    (t.setObj id o).grid = t.grid := rfl

/-- A one-cell neighbor offset never maps a cell to itself under
`get_relative_loc`. -/
theorem get_relative_loc_ne (x y : Nat) (dx dy : Int)
    (hx : x < TANK_WIDTH) (hy : y < TANK_HEIGHT)
    (hd : ¬(dx = 0 ∧ dy = 0)) (hdx : dx.natAbs ≤ 1) (hdy : dy.natAbs ≤ 1)
    {nx ny : Nat} (hr : get_relative_loc x y dx dy = some (nx, ny)) :
    ¬(nx = x ∧ ny = y) := by
  rw [get_relative_loc] at hr
  simp only [TANK_WRAP, if_true, TANK_WIDTH, TANK_HEIGHT] at hr
  rw [TANK_WIDTH] at hx
  rw [TANK_HEIGHT] at hy
  split_ifs at hr <;>
    simp only [Option.some.injEq, Prod.mk.injEq] at hr <;>
    obtain ⟨hrx, hry⟩ := hr <;>
    rintro ⟨hcx, hcy⟩ <;>
    omega

/-- C10: on a burst tick a live food particle does not move; on a standard
tick it makes one oracle-drawn one-cell move attempt, relocating exactly
when the target cell is in bounds (x wrapped, y not) and unoccupied —
updating its stored position and both grid cells consistently — and
staying in place otherwise. -/
theorem c10_food_move (o : Oracle) (k : Nat) (t : Tank) (id : Nat)
    (fx fy : Nat) (hobj : t.getObj id = some (.food true fx fy))
    (hfx : fx < TANK_WIDTH) (hfy : fy < TANK_HEIGHT) :
    stepObj o k true t id = .ok t ∧
    stepObj o k false t id = .ok (foodMove o k t id fx fy) ∧
    (∀ nx ny,
      get_relative_loc fx fy (neighborLocs.getD (o.dir k % 8) (0, 0)).1
        (neighborLocs.getD (o.dir k % 8) (0, 0)).2 = some (nx, ny) →
      ((t.grid nx ny).isSome → foodMove o k t id fx fy = t) ∧
      ((t.grid nx ny).isSome = false →
        (foodMove o k t id fx fy).getObj id = some (.food true nx ny) ∧
        (foodMove o k t id fx fy).grid nx ny = some id ∧
        (foodMove o k t id fx fy).grid fx fy = none)) ∧
    (get_relative_loc fx fy (neighborLocs.getD (o.dir k % 8) (0, 0)).1
        (neighborLocs.getD (o.dir k % 8) (0, 0)).2 = none →
      foodMove o k t id fx fy = t) := by
  have hdmem : neighborLocs.getD (o.dir k % 8) (0, 0) ∈ neighborLocs := by
    have h8 : o.dir k % 8 < 8 := Nat.mod_lt _ (by norm_num)
    rw [List.getD_eq_getElem _ _ (by simpa [neighborLocs] using h8)]
    exact List.getElem_mem _
  have hdprop : ∀ d ∈ neighborLocs,
      ¬(d.1 = 0 ∧ d.2 = 0) ∧ d.1.natAbs ≤ 1 ∧ d.2.natAbs ≤ 1 := by decide
  refine ⟨by simp [stepObj, hobj, Obj.alive], by simp [stepObj, hobj, Obj.alive], ?_, ?_⟩
  · intro nx ny hr
    obtain ⟨hd0, hd1, hd2⟩ := hdprop _ hdmem
    have hne : ¬(nx = fx ∧ ny = fy) :=
      get_relative_loc_ne fx fy _ _ hfx hfy hd0 hd1 hd2 hr
    constructor
    · intro hocc
      unfold foodMove
      rw [hr]
      simp [hocc]
    · intro hocc
      have hfm : foodMove o k t id fx fy =
          ((t.setObj id (.food true nx ny)).setCell nx ny (some id)).setCell
            fx fy none := by
        unfold foodMove
        rw [hr]
        simp [hocc]
      refine ⟨?_, ?_, ?_⟩
      · rw [hfm]
        exact setObj_getObj_eq t id (.food true nx ny) hobj
      · rw [hfm]
        simp [Tank.setCell, hne]
      · rw [hfm]
        simp [Tank.setCell]
  · intro hr
    unfold foodMove
    rw [hr]

/-- C10 (witness): a concrete live food particle at `(5, 5)` on an empty
grid moves up-left (direction draw 0) on a standard tick and stays put on
a burst tick. -/
theorem c10_food_move_witness :
    ((⟨buildGrid [(0, .food true 5 5)], [(0, .food true 5 5)], [], 1, 1⟩ :
        Tank).getObj 0 = some (.food true 5 5)) ∧
    stepObj oracle0 0 true
      ⟨buildGrid [(0, .food true 5 5)], [(0, .food true 5 5)], [], 1, 1⟩ 0 =
      .ok ⟨buildGrid [(0, .food true 5 5)], [(0, .food true 5 5)], [], 1, 1⟩ :=
  ⟨by decide,
   (c10_food_move oracle0 0
     ⟨buildGrid [(0, .food true 5 5)], [(0, .food true 5 5)], [], 1, 1⟩ 0 5 5
     (by decide) (by decide) (by decide)).1⟩

/-! ## C7: a killing attack -/

/-- C7: an attack (without burst) on a live organism target with nonzero
power, affordable cost, and damage driving the target's stamina to ≤ 0,
marks the target dead and credits the attacker exactly
`(target_energy − GERM_BASE_ABSORB) × GERM_ABSORB_RATE + GERM_BASE_ABSORB`
on top of paying the attack cost; at end of tick, when the killed target is
the tick's only dead entity and no births are queued, reconciliation
removes it from the entity registry and clears its grid cell. -/
theorem c7_attack_kill
    (t : Tank) (id tid x y : Nat) (adx ady pw : Int)
    (mutN : Nat) (mutChs : Nat → MutChoice) (g tg : GermRec) (t' : Tank)
    (hne : tid ≠ id)
    (hga : t.getObj id = some (.germ g))
    (htg : t.getObj tid = some (.germ tg))
    (hcell : t.cellPy (get_relative_loc x y adx ady) = some tid)
    (halive : tg.alive = true)
    (hpw : pw ≠ 0)
    (hcost : ¬(ATTACK_BASE_COST + ATTACK_POWER_COST * (pw : ℚ) > g.energy))
    (hkill : tg.stamina - (pw : ℚ) ≤ 0)
    (hpr : process_request t id (.attack adx ady false pw) x y mutN mutChs =
      .ok t')
    (hng : t'.newGerms = [])
    (hded : t'.objs.filter (fun p => ¬p.2.alive) =
      [(tid, Obj.germ { tg with stamina := tg.stamina - (pw : ℚ),
                                pain := tg.pain + (pw : ℚ), alive := false })]) :
    t'.getObj tid =
      some (.germ
        { tg with
            stamina := tg.stamina - (pw : ℚ),
            pain := tg.pain + (pw : ℚ),
            alive := false }) ∧
    t'.getObj id =
      some (.germ
        { g with
            burst := false,
            success := true,
            energy :=
              g.energy - (ATTACK_BASE_COST + ATTACK_POWER_COST * (pw : ℚ)) +
                ((tg.energy - GERM_BASE_ABSORB) * GERM_ABSORB_RATE +
                  GERM_BASE_ABSORB) }) ∧
    (reconcile t').getObj tid = none ∧
    (reconcile t').grid tg.x tg.y = none := by
  have e2 : (t.modifyGerm id fun g0 => { g0 with burst := false }).getObj tid = some (.germ tg) := by
    rw [modifyGerm_getObj_ne t id tid _ hne]
    exact htg
  have e3 : (t.modifyGerm id fun g0 => { g0 with burst := false }).getObj id = some (.germ { g with burst := false }) := modifyGerm_getObj_eq t id _ hga
  have e4 : (((t.modifyGerm id fun g0 => { g0 with burst := false }).modifyGerm id fun g0 => { g0 with success := true, energy := g0.energy - (ATTACK_BASE_COST + ATTACK_POWER_COST * (pw : ℚ)) }).modifyGerm tid (fun g0 => { g0 with stamina := g0.stamina - (pw : ℚ), pain := g0.pain + (pw : ℚ) })).getObj tid = some (.germ { tg with stamina := tg.stamina - (pw : ℚ), pain := tg.pain + (pw : ℚ) }) := by
    refine modifyGerm_getObj_eq _ tid _ ?_
    rw [modifyGerm_getObj_ne _ id tid _ hne]
    exact e2
  unfold process_request at hpr
  simp only [requestBurst, Bool.false_eq_true, if_false, if_neg] at hpr
  rw [show (t.modifyGerm id fun g0 => { g0 with burst := false }).cellPy (get_relative_loc x y adx ady) = some tid from hcell] at hpr
  simp only [e2, e3, Obj.alive, halive] at hpr
  rw [if_neg (by
    push_neg
    exact ⟨trivial, hpw, by simpa using hcost⟩)] at hpr
  simp only [e4] at hpr
  rw [if_pos (by simpa using hkill)] at hpr
  simp only [Except.ok.injEq] at hpr
  subst hpr
  have e6 : ((((t.modifyGerm id fun g0 => { g0 with burst := false }).modifyGerm id fun g0 => { g0 with success := true, energy := g0.energy - (ATTACK_BASE_COST + ATTACK_POWER_COST * (pw : ℚ)) }).modifyGerm tid (fun g0 => { g0 with stamina := g0.stamina - (pw : ℚ), pain := g0.pain + (pw : ℚ) })).modifyGerm id (fun g0 => { g0 with energy := g0.energy + ((tg.energy - GERM_BASE_ABSORB) * GERM_ABSORB_RATE + GERM_BASE_ABSORB) })).getObj tid = some (.germ { tg with stamina := tg.stamina - (pw : ℚ), pain := tg.pain + (pw : ℚ) }) := by
    rw [modifyGerm_getObj_ne _ id tid _ hne]
    exact e4
  have ha : (((((t.modifyGerm id fun g0 => { g0 with burst := false }).modifyGerm id fun g0 => { g0 with success := true, energy := g0.energy - (ATTACK_BASE_COST + ATTACK_POWER_COST * (pw : ℚ)) }).modifyGerm tid (fun g0 => { g0 with stamina := g0.stamina - (pw : ℚ), pain := g0.pain + (pw : ℚ) })).modifyGerm id (fun g0 => { g0 with energy := g0.energy + ((tg.energy - GERM_BASE_ABSORB) * GERM_ABSORB_RATE + GERM_BASE_ABSORB) })).modifyGerm tid (fun g0 => { g0 with alive := false })).getObj tid = some (.germ { tg with stamina := tg.stamina - (pw : ℚ), pain := tg.pain + (pw : ℚ), alive := false }) :=
    modifyGerm_getObj_eq _ tid _ e6
  refine ⟨ha, ?_, ?_, ?_⟩
  · have e5 : (((t.modifyGerm id fun g0 => { g0 with burst := false }).modifyGerm id fun g0 => { g0 with success := true, energy := g0.energy - (ATTACK_BASE_COST + ATTACK_POWER_COST * (pw : ℚ)) }).modifyGerm tid (fun g0 => { g0 with stamina := g0.stamina - (pw : ℚ), pain := g0.pain + (pw : ℚ) })).getObj id = some (.germ { g with burst := false, success := true, energy := g.energy - (ATTACK_BASE_COST + ATTACK_POWER_COST * (pw : ℚ)) }) := by
      rw [modifyGerm_getObj_ne _ tid id _ (fun h => hne h.symm)]
      exact modifyGerm_getObj_eq _ id _ e3
    rw [modifyGerm_getObj_ne _ tid id _ (fun h => hne h.symm)]
    exact modifyGerm_getObj_eq _ id _ e5
  · simp only [reconcile]
    rw [hded]
    simp only [List.foldl_cons, List.foldl_nil]
    simp only [kill_germ]
    rw [ha]
    simp only [Tank.getObj, hng, List.filter_nil, List.append_nil]
    rw [List.find?_eq_none.mpr]
    · rfl
    · intro p hp
      have h2 := (List.mem_filter.mp hp).2
      simpa using h2
  · simp only [reconcile]
    rw [hded]
    simp only [List.foldl_cons, List.foldl_nil]
    simp only [kill_germ]
    rw [ha]
    simp [Obj.ox, Obj.oy]

/-- Attacker fixture for the C7 witness: at (10,10) with 50 energy. -/
def gAtk : GermRec := ⟨brain_ret, true, 10, 10, 50, 10, false, false, 0⟩

/-- Target fixture for the C7 witness: at (11,10) with 1 stamina. -/
def gTgt : GermRec := ⟨brain_ret, true, 11, 10, 20, 1, false, false, 0⟩

def c7Objs : List (Nat × Obj) := [(0, .germ gAtk), (1, .germ gTgt)]

def tankC7 : Tank := ⟨buildGrid c7Objs, c7Objs, [], 0, 2⟩

/-- The tank after the C7 witness attack resolves. -/
def tankC7Post : Tank :=
  ((((tankC7.modifyGerm 0 fun g0 => { g0 with burst := false }).modifyGerm 0 fun g0 => { g0 with success := true, energy := g0.energy - (ATTACK_BASE_COST + ATTACK_POWER_COST * ((1 : Int) : ℚ)) }).modifyGerm 1 (fun g0 => { g0 with stamina := g0.stamina - ((1 : Int) : ℚ), pain := g0.pain + ((1 : Int) : ℚ) })).modifyGerm 0 (fun g0 => { g0 with energy := g0.energy + ((gTgt.energy - GERM_BASE_ABSORB) * GERM_ABSORB_RATE + GERM_BASE_ABSORB) })).modifyGerm 1 (fun g0 => { g0 with alive := false })

theorem c7_attack_kill_witness :
    (1 : Nat) ≠ 0 ∧ (reconcile tankC7Post).getObj 1 = none :=
  ⟨by decide,
   (c7_attack_kill tankC7 0 1 10 10 1 0 1 0 (fun _ => ch0) gAtk gTgt tankC7Post
     (by decide) (by decide) (by decide) (by decide) (by decide) (by decide)
     (by decide) (by decide) (by rfl) (by rfl) (by decide)).2.2.1⟩

/-! ## C1: interpreter faults and the tick -/

/-- Any error `runLoop` returns is the diagnostic fault built at the failing
step: it carries the full code listing and the in-range failing line. -/
theorem runLoop_fault {code : List Cmd} {gs : GState} {fuel : Nat}
    {st : IState} {ex : Nat} {f : Fault}
    (h : runLoop code gs fuel st ex = .error f) :
    f.listing = code ∧ f.line < code.length := by
  induction fuel generalizing st ex with
  | zero => simp [runLoop] at h
  | succ n ih =>
    rw [runLoop] at h
    by_cases hh : st.head < code.length
    · rw [dif_pos hh] at h
      cases hst : execCmd code gs st (code.get ⟨st.head, hh⟩) with
      | error e =>
        rw [hst] at h
        simp only [Except.error.injEq] at h
        subst h
        exact ⟨rfl, hh⟩
      | ok so =>
        rw [hst] at h
        cases so with
        | done r m => simp at h
        | next st2 => exact ih h
    · rw [dif_neg hh] at h
      simp at h

/-- C1: a brain fault is indeed re-signaled as a diagnostic fault carrying
the failing line and the full listing, but contrary to the spec it does NOT
end only that organism's turn: a faulting step aborts the registry loop,
and an aborted registry loop aborts the whole tick (`update` returns the
error). -/
theorem c1_brain_fault_aborts_tick :
    (∀ (br : Brain) (gs : GState) (f : Fault), br.run gs = .error f →
      f.listing = br.code ∧ f.line < br.code.length) ∧
    (∀ (o : Oracle) (b : Bool) (t : Tank) (ids : List Nat) (id k : Nat)
      (e : TankErr),
      stepObj o k b t id = .error e → tickLoop o b (id :: ids) k t = .error e) ∧
    (∀ (o : Oracle) (b : Bool) (t : Tank) (e : TankErr),
      tickLoop o b (t.objs.map Prod.fst) 0 t = .error e →
      update o b t = .error e) := by
  refine ⟨fun br gs f h => runLoop_fault h,
    fun o b t ids id k e h => ?_, fun o b t e h => ?_⟩
  · simp [tickLoop, h]
  · simp [update, h]

/-- A brain whose first instruction reads an unknown symbol. -/
def brain_bad : Brain := mkBrain [Cmd.ax (.sym "q")]

def gBad : GermRec := ⟨brain_bad, true, 10, 10, 50, 10, false, false, 0⟩

def c1Objs : List (Nat × Obj) := [(0, .germ gBad)]

def tankC1 : Tank := ⟨buildGrid c1Objs, c1Objs, [], 0, 1⟩

/-- C1 counterexample: one organism's evaluator fault propagates out of its
turn and aborts the whole simulation tick, refuting "a simulation tick never
aborts because one organism's code faulted". -/
theorem c1_fault_counterexample :
    update oracle0 false tankC1 = .error (.brainFault ⟨0, [Cmd.ax (.sym "q")]⟩) := by
  rfl

theorem c1_brain_fault_aborts_tick_witness :
    tickLoop oracle0 false (tankC1.objs.map Prod.fst) 0 tankC1 =
      .error (.brainFault ⟨0, [Cmd.ax (.sym "q")]⟩) ∧
    update oracle0 false tankC1 = .error (.brainFault ⟨0, [Cmd.ax (.sym "q")]⟩) :=
  ⟨by rfl,
   c1_brain_fault_aborts_tick.2.2 oracle0 false tankC1
     (.brainFault ⟨0, [Cmd.ax (.sym "q")]⟩) (by rfl)⟩

/-! ## C5: deaths and births during the registry iteration -/

/-- `modify_germ` never changes which ids the registry holds. -/
theorem ids_modifyGerm (t : Tank) (id : Nat) (f : GermRec → GermRec) :
    (t.modifyGerm id f).objs.map Prod.fst = t.objs.map Prod.fst := by
  rw [modifyGerm_objs, List.map_map]
  exact List.map_congr_left (fun p _ => mgF_fst id f p)

/-- Overwriting an entity in place never changes which ids the registry
holds. -/
theorem ids_setObj (t : Tank) (id : Nat) (o : Obj) :
    (t.setObj id o).objs.map Prod.fst = t.objs.map Prod.fst := by
  show (t.objs.map (soF id o)).map Prod.fst = _
  rw [List.map_map]
  exact List.map_congr_left (fun p _ => soF_fst id o p)

/-- Eating only marks food dead in place: the registry ids are unchanged. -/
theorem ids_dine (t : Tank) (id : Nat) :
    (dine t id).objs.map Prod.fst = t.objs.map Prod.fst := by
  unfold dine
  generalize neighborLocs = l
  induction l generalizing t with
  | nil => rfl
  | cons d ds ih =>
    rw [List.foldl_cons, ih]
    cases h1 : t.getObj id with
    | none => simp only [h1]
    | some o =>
      cases o with
      | food a fx fy => simp only [h1]
      | germ g =>
        simp only [h1]
        cases h2 : t.cellPy (get_relative_loc g.x g.y d.1 d.2) with
        | none => rfl
        | some tid =>
          simp only [h2]
          cases h3 : t.getObj tid with
          | none => rfl
          | some o2 =>
            cases o2 with
            | germ g2 => rfl
            | food af fx fy =>
              cases af
              · rfl
              · simp only [ids_setObj, ids_modifyGerm]

/-- Resolving a request queues children and marks deaths but never adds to
or removes from the registry: the id list is unchanged. -/
theorem ids_process_request (t : Tank) (id : Nat) (req : Request)
    (x y mutN : Nat) (mutChs : Nat → MutChoice) (t1 : Tank)
    (h : process_request t id req x y mutN mutChs = .ok t1) :
    t1.objs.map Prod.fst = t.objs.map Prod.fst := by
  unfold process_request at h
  simp only [] at h
  repeat' split at h
  all_goals
    first
    | (simp only [Except.ok.injEq] at h; subst h;
       simp [Tank.setCell, ids_modifyGerm, ids_setObj])
    | simp at h

/-- A food particle's move changes cells, never the id list. -/
theorem ids_foodMove (o : Oracle) (k : Nat) (t : Tank) (id fx fy : Nat) :
    (foodMove o k t id fx fy).objs.map Prod.fst = t.objs.map Prod.fst := by
  unfold foodMove
  repeat' split
  all_goals simp [Tank.setCell, ids_setObj]

set_option maxHeartbeats 2000000 in
/-- One organism's whole action phase preserves the registry's id list. -/
theorem ids_germAct (o : Oracle) (k : Nat) (t : Tank) (id : Nat) (t1 : Tank)
    (h : germAct o k t id = .ok t1) :
    t1.objs.map Prod.fst = t.objs.map Prod.fst := by
  unfold germAct at h
  split at h
  · split at h
    · exact Except.noConfusion h
    · split at h
      · exact Except.noConfusion h
      · rename_i t3 hpr
        simp only [Except.ok.injEq] at h
        subst h
        rw [ids_modifyGerm, ids_process_request _ _ _ _ _ _ _ _ hpr,
          ids_modifyGerm, ids_dine]
  · injection h with h
    subst h
    rfl

/-- One registry entry's turn preserves the registry's id list. -/
theorem ids_stepObj (o : Oracle) (k : Nat) (b : Bool) (t : Tank) (id : Nat)
    (t1 : Tank) (h : stepObj o k b t id = .ok t1) :
    t1.objs.map Prod.fst = t.objs.map Prod.fst := by
  unfold stepObj at h
  simp only [] at h
  repeat' split at h
  all_goals
    first
    | (simp only [Except.ok.injEq] at h; subst h;
       simp [ids_modifyGerm, ids_setObj, ids_foodMove])
    | simp at h
    | (rw [ids_germAct _ _ _ _ _ h]; simp [ids_setObj])
    | rw [ids_germAct _ _ _ _ _ h]

/-- The whole registry iteration preserves the registry's id list. -/
theorem ids_tickLoop (o : Oracle) (b : Bool) (l : List Nat) (k : Nat)
    (t t1 : Tank) (h : tickLoop o b l k t = .ok t1) :
    t1.objs.map Prod.fst = t.objs.map Prod.fst := by
  induction l generalizing k t with
  | nil =>
    simp only [tickLoop, Except.ok.injEq] at h
    subst h
    rfl
  | cons id rest ih =>
    rw [tickLoop] at h
    cases hs : stepObj o k b t id with
    | error e => simp [hs] at h
    | ok t2 =>
      simp only [hs] at h
      rw [ih _ _ h, ids_stepObj _ _ _ _ _ _ hs]

/-- C5 (amended): a tick iterates the id list captured at tick start; the
iteration itself never adds to or removes from the registry (deaths are
only marked in place, children only queued in `new_germs`), and the
buffered deaths and births are applied by the reconciliation at the end of
`update`.  What the spec wrongly adds — that entities cannot OBSERVE a
mid-tick death or birth — is refuted by `c5_buffering_counterexample`. -/
theorem c5_registry_buffered (o : Oracle) (b : Bool) (t t1 : Tank)
    (hloop : tickLoop o b (t.objs.map Prod.fst) 0 t = .ok t1) :
    t1.objs.map Prod.fst = t.objs.map Prod.fst ∧
    update o b t = .ok (regrowFood o (reconcile t1)) := by
  refine ⟨ids_tickLoop _ _ _ _ _ _ hloop, ?_⟩
  simp only [update, hloop]

/-- Brain for the C5 observer: write the x-offset of the nearest visible
food particle into memory cell 0, then return. -/
def brainB : Brain :=
  { mkBrain [Cmd.set (.lit 0) (.fix (.lit 0)), Cmd.ret] with
      memory := 7 :: List.replicate 99 0 }

def gA5 : GermRec := ⟨brain_ret, true, 10, 10, 50, 10, false, false, 0⟩

def gB5 : GermRec := ⟨brainB, true, 12, 10, 50, 10, false, false, 0⟩

def c5Objs : List (Nat × Obj) :=
  [(0, .germ gA5), (1, .food true 11 10), (2, .germ gB5)]

def tankC5 : Tank := ⟨buildGrid c5Objs, c5Objs, [], 1, 3⟩

/-- Memory of the organism named `id` in a tick result. -/
def c5_mem (r : Except TankErr Tank) (id : Nat) : Option (List Int) :=
  match r with
  | .ok t1 =>
    match t1.getObj id with
    | some (.germ g) => some g.brain.memory
    | _ => none
  | .error _ => none

/-- Registry entry of `id` in a tick result. -/
def c5_obj (r : Except TankErr Tank) (id : Nat) : Option Obj :=
  match r with
  | .ok t1 => t1.getObj id
  | .error _ => none

set_option maxRecDepth 100000 in
set_option maxHeartbeats 4000000 in
/-- C5 counterexample: before the tick the observer at (12,10) sees the food
particle at relative (-1,0), and its brain run on that snapshot would record
-1; but in the tick, germ 0 eats the particle first, and the observer's
brain — run later in the same iteration — sees an empty food view and
records the empty-view default 0 instead: the observer saw the effect of a
death from earlier in the same tick.  (The particle is also gone from the
registry at end of tick.) -/
theorem c5_buffering_counterexample :
    (viewState tankC5 12 10).2 = [(-1, 0)] ∧
    brainB.run ⟨50, 1, 10, 0, false, [(-2, 0)], [(-1, 0)]⟩ =
      .ok ⟨.empty, (-1) :: List.replicate 99 0, 2⟩ ∧
    c5_mem (update oracle0 false tankC5) 2 =
      some ((0 : Int) :: List.replicate 99 0) ∧
    c5_obj (update oracle0 false tankC5) 1 = none := by
  refine ⟨by decide, by decide, by decide, by decide⟩

/-- The tank state after the C5 tick's registry iteration. -/
def tankC5Mid : Tank :=
  match tickLoop oracle0 false (tankC5.objs.map Prod.fst) 0 tankC5 with
  | .ok t1 => t1
  | .error _ => tankC5

set_option maxRecDepth 100000 in
set_option maxHeartbeats 4000000 in
theorem c5_registry_buffered_witness :
    tankC5Mid.objs.map Prod.fst = tankC5.objs.map Prod.fst ∧
    update oracle0 false tankC5 = .ok (regrowFood oracle0 (reconcile tankC5Mid)) :=
  c5_registry_buffered oracle0 false tankC5 tankC5Mid (by rfl)

/-! ## C9: serialization round-trip -/

/-- One serialized entity (one dict of the `to_json` list): every attribute
but the brain's mark-id cache, which `from_dict` recomputes from the code. -/
inductive Rec where
  | germRec (code : List Cmd) (memory : List Int) (alive : Bool) (x y : Nat)
      (energy stamina : ℚ) (success burst : Bool) (pain : ℚ)
  | foodRec (alive : Bool) (x y : Nat)
deriving DecidableEq

/-- Serialize one entity (`to_json`'s per-object dict, with
`brain.to_dict()` inlined). -/
def objRec : Obj → Rec
  | .germ g => .germRec g.brain.code g.brain.memory g.alive g.x g.y g.energy
      g.stamina g.success g.burst g.pain
  | .food a x y => .foodRec a x y

/-- Rebuild one entity; the brain comes from `GermBrain.from_dict`: a fresh
brain built from the code, with the saved memory put back. -/
def recObj : Rec → Obj
  | .germRec code memory alive x y energy stamina success burst pain =>
    .germ ⟨{ mkBrain code with memory := memory }, alive, x, y, energy,
      stamina, success, burst, pain⟩
  | .foodRec a x y => .food a x y

/-- `GermTank.to_json`: the entity list, in registry order. -/
def to_json (t : Tank) : List Rec := t.objs.map (fun p => objRec p.2)

/-- `GermTank.__init__(json_str)`: rebuild the registry in order, write
each entity's grid cell, recount the food, start with no queued births. -/
def fromRecords (rs : List Rec) : Tank :=
  { grid := buildGrid (rs.enum.map (fun p => (p.1, recObj p.2))),
    objs := rs.enum.map (fun p => (p.1, recObj p.2)),
    newGerms := [],
    foodCount := (rs.filter (fun r => match r with
      | .foodRec _ _ _ => true | _ => false)).length,
    nextId := rs.length }

theorem objRec_recObj (r : Rec) : objRec (recObj r) = r := by
  cases r <;> rfl

theorem recObj_ox (o : Obj) : (recObj (objRec o)).ox = o.ox := by
  cases o <;> rfl

theorem recObj_oy (o : Obj) : (recObj (objRec o)).oy = o.oy := by
  cases o <;> rfl

/-- Serializing a freshly deserialized world reproduces the records. -/
theorem to_json_fromRecords (rs : List Rec) : to_json (fromRecords rs) = rs := by
  unfold to_json fromRecords
  simp only [List.map_map]
  calc rs.enum.map ((fun p : Nat × Obj => objRec p.2) ∘
        (fun p : Nat × Rec => (p.1, recObj p.2)))
      = rs.enum.map Prod.snd :=
        List.map_congr_left (fun p _ => objRec_recObj p.2)
    _ = rs := List.enum_map_snd rs

/-- The positional content of a registry: each entity's cell and record. -/
def posRecs (l : List (Nat × Obj)) : List (Nat × Nat × Rec) :=
  l.map (fun p => (p.2.ox, p.2.oy, objRec p.2))

/-- The record a cell shows: that of the last listed entity at the cell. -/
def occFind (pr : List (Nat × Nat × Rec)) (a b : Nat) : Option Rec :=
  (pr.reverse.find? (fun q => a = q.1 ∧ b = q.2.1)).map (fun q => q.2.2)

/-- The record of the entity occupying cell `(a, b)`. -/
def occupantRec (t : Tank) (a b : Nat) : Option Rec :=
  (t.grid a b).bind (fun i => (t.getObj i).map objRec)

theorem buildGrid_snoc (l : List (Nat × Obj)) (p : Nat × Obj) (a b : Nat) :
    buildGrid (l ++ [p]) a b =
      if a = p.2.ox ∧ b = p.2.oy then some p.1 else buildGrid l a b := by
  unfold buildGrid
  rw [List.foldl_append]
  rfl

theorem buildGrid_mem {l : List (Nat × Obj)} {a b i : Nat}
    (h : buildGrid l a b = some i) : i ∈ l.map Prod.fst := by
  induction l using List.reverseRecOn with
  | nil => simp [buildGrid] at h
  | append_singleton l p ih =>
    rw [buildGrid_snoc] at h
    by_cases hc : a = p.2.ox ∧ b = p.2.oy
    · rw [if_pos hc] at h
      simp only [Option.some.injEq] at h
      simp [h.symm]
    · rw [if_neg hc] at h
      simp only [List.map_append, List.mem_append]
      exact Or.inl (ih h)

/-- On a registry with distinct ids, a grid rebuilt from the registry
shows, at each cell, exactly the last listed entity at that cell. -/
theorem occupantRec_buildGrid (l : List (Nat × Obj))
    (hnd : (l.map Prod.fst).Nodup) (a b : Nat) :
    (buildGrid l a b).bind
        (fun i => ((l.find? (fun p => p.1 = i)).map (fun p => p.2)).map objRec) =
      occFind (posRecs l) a b := by
  induction l using List.reverseRecOn with
  | nil => rfl
  | append_singleton l p ih =>
    have hnd' : (l.map Prod.fst).Nodup := by
      rw [List.map_append] at hnd
      exact (List.nodup_append.mp hnd).1
    have hnotin : p.1 ∉ l.map Prod.fst := by
      rw [List.map_append] at hnd
      rcases List.nodup_append.mp hnd with ⟨h1, h2, hdisj⟩
      intro hmem
      exact hdisj hmem (by simp)
    have hocc : occFind (posRecs (l ++ [p])) a b =
        if a = p.2.ox ∧ b = p.2.oy then some (objRec p.2)
        else occFind (posRecs l) a b := by
      unfold occFind posRecs
      rw [List.map_append, List.reverse_append]
      by_cases hc : a = p.2.ox ∧ b = p.2.oy
      · rw [if_pos hc]
        simp [List.find?_cons, hc.1, hc.2]
      · rw [if_neg hc]
        rcases not_and_or.mp hc with h | h
        · simp [List.find?_cons, h]
        · simp [List.find?_cons, h]
    rw [buildGrid_snoc, hocc]
    by_cases hc : a = p.2.ox ∧ b = p.2.oy
    · rw [if_pos hc, if_pos hc]
      have hfl : l.find? (fun q => q.1 = p.1) = none := by
        rw [List.find?_eq_none]
        intro x hx
        simp only [decide_eq_true_eq]
        intro hEq
        exact hnotin (hEq ▸ List.mem_map_of_mem Prod.fst hx)
      simp [List.find?_append, hfl, List.find?_cons]
    · rw [if_neg hc, if_neg hc]
      cases hg : buildGrid l a b with
      | none =>
        rw [hg] at ih
        simpa using ih hnd'
      | some i =>
        rw [hg] at ih
        have hmem : i ∈ l.map Prod.fst := buildGrid_mem hg
        rcases List.mem_map.mp hmem with ⟨q, hq, hq1⟩
        have hvs : (l.find? (fun r => r.1 = i)).isSome :=
          List.find?_isSome.mpr ⟨q, hq, by simp [hq1]⟩
        obtain ⟨v, hv⟩ := Option.isSome_iff_exists.mp hvs
        have happ : (l ++ [p]).find? (fun r => r.1 = i) =
            l.find? (fun r => r.1 = i) := by
          simp [List.find?_append, hv]
        rw [Option.some_bind, happ]
        simpa using ih hnd'

/-- In a well-formed tank (ids distinct, no queued births, grid matching
the registry), each cell shows the last listed entity at that cell. -/
theorem occupantRec_char (t : Tank) (hng : t.newGerms = [])
    (hgrid : t.grid = buildGrid t.objs)
    (hnd : (t.objs.map Prod.fst).Nodup) (a b : Nat) :
    occupantRec t a b = occFind (posRecs t.objs) a b := by
  unfold occupantRec Tank.getObj
  rw [hgrid, hng, List.append_nil]
  rw [show (fun i => (Option.map (fun p => p.2)
      (t.objs.find? (fun p => p.1 = i))).map objRec) =
    (fun i => ((t.objs.find? (fun p => p.1 = i)).map (fun p => p.2)).map objRec)
    from rfl]
  exact occupantRec_buildGrid t.objs hnd a b

/-- Deserialization reproduces cells and records entity by entity. -/
theorem posRecs_roundtrip (t : Tank) :
    posRecs ((fromRecords (to_json t)).objs) = posRecs t.objs := by
  unfold posRecs fromRecords to_json
  simp only [List.map_map]
  calc (t.objs.map (fun p => objRec p.2)).enum.map
        ((fun p : Nat × Obj => (p.2.ox, p.2.oy, objRec p.2)) ∘
          (fun p : Nat × Rec => (p.1, recObj p.2)))
      = (t.objs.map (fun p => objRec p.2)).enum.map
          ((fun r : Rec => ((recObj r).ox, (recObj r).oy, objRec (recObj r))) ∘
            Prod.snd) := rfl
    _ = ((t.objs.map (fun p => objRec p.2)).enum.map Prod.snd).map
          (fun r : Rec => ((recObj r).ox, (recObj r).oy, objRec (recObj r))) := by
        rw [List.map_map]
    _ = (t.objs.map (fun p => objRec p.2)).map
          (fun r : Rec => ((recObj r).ox, (recObj r).oy, objRec (recObj r))) := by
        rw [List.enum_map_snd]
    _ = t.objs.map (fun p => (p.2.ox, p.2.oy, objRec p.2)) := by
        rw [List.map_map]
        refine List.map_congr_left (fun p _ => ?_)
        show ((recObj (objRec p.2)).ox, (recObj (objRec p.2)).oy,
          objRec (recObj (objRec p.2))) = (p.2.ox, p.2.oy, objRec p.2)
        rw [recObj_ox, recObj_oy, objRec_recObj]

/-- C9: for a well-formed world (distinct entity ids, no queued births,
grid matching the registry), serializing and deserializing
(`GermTank(GermTank.to_json())`) reproduces every entity's attributes —
position, alive flag, and for organisms energy, stamina, pain, success,
burst, code and memory — in registry order, and shows the same occupant
record at every grid cell. -/
theorem c9_roundtrip (t : Tank)
    (hng : t.newGerms = [])
    (hnd : (t.objs.map Prod.fst).Nodup)
    (hgrid : t.grid = buildGrid t.objs) :
    to_json (fromRecords (to_json t)) = to_json t ∧
    ∀ a b : Nat, occupantRec (fromRecords (to_json t)) a b = occupantRec t a b := by
  refine ⟨to_json_fromRecords _, fun a b => ?_⟩
  have h2nd : (((fromRecords (to_json t)).objs).map Prod.fst).Nodup := by
    show ((((to_json t)).enum.map (fun p => (p.1, recObj p.2))).map Prod.fst).Nodup
    rw [List.map_map]
    rw [show ((Prod.fst ∘ fun p : Nat × Rec => (p.1, recObj p.2))) =
      (Prod.fst : Nat × Rec → Nat) from rfl]
    rw [List.enum_map_fst]
    exact List.nodup_range _
  rw [occupantRec_char (fromRecords (to_json t)) rfl rfl h2nd a b,
    occupantRec_char t hng hgrid hnd a b, posRecs_roundtrip]

def c9Objs : List (Nat × Obj) :=
  [(0, .germ ⟨brain_ret, true, 3, 4, 50, 10, false, false, 0⟩),
   (1, .food true 5 6)]

def tankC9 : Tank := ⟨buildGrid c9Objs, c9Objs, [], 1, 2⟩

theorem c9_roundtrip_witness :
    tankC9.newGerms = [] ∧
    to_json (fromRecords (to_json tankC9)) = to_json tankC9 ∧
    occupantRec (fromRecords (to_json tankC9)) 5 6 = occupantRec tankC9 5 6 :=
  ⟨rfl, (c9_roundtrip tankC9 rfl (by decide) rfl).1,
   (c9_roundtrip tankC9 rfl (by decide) rfl).2 5 6⟩

/-! ## C8: the energy/stamina bounds invariant -/

/-- A step that continues keeps the power register nonnegative (`pwr` sets
`resolve(...) % 6`, a Python modulo, hence in `[0, 6)`). -/
theorem execCmd_ipower {code : List Cmd} {gs : GState} {st st' : IState}
    {c : Cmd} (h : execCmd code gs st c = .ok (.next st'))
    (hp : 0 ≤ st.ipower) : 0 ≤ st'.ipower := by
  cases c <;>
    simp only [execCmd, bind, Except.bind] at h <;>
    repeat' split at h
  all_goals
    first
    | exact Except.noConfusion h
    | (simp only [Except.ok.injEq, StepOut.next.injEq] at h; subst h;
       first
       | exact hp
       | exact Int.emod_nonneg _ (by decide))
    | (simp only [Except.ok.injEq] at h; exact StepOut.noConfusion h)

/-- A step that returns an attack request reports the power register. -/
theorem execCmd_done_attack {code : List Cmd} {gs : GState} {st : IState}
    {c : Cmd} {r : Request} {m : List Int}
    (h : execCmd code gs st c = .ok (.done r m))
    {adx ady : Int} {bb : Bool} {pw : Int}
    (hr : r = .attack adx ady bb pw) : pw = st.ipower := by
  subst hr
  cases c <;>
    simp only [execCmd, bind, Except.bind] at h <;>
    repeat' split at h
  all_goals
    first
    | exact Except.noConfusion h
    | (simp only [Except.ok.injEq] at h; exact StepOut.noConfusion h)
    | (simp only [Except.ok.injEq, StepOut.done.injEq] at h;
       first
       | exact Request.noConfusion h.1
       | exact (Request.attack.inj h.1.symm).2.2.2)

/-- Any attack request the interpreter loop returns carries a nonnegative
power. -/
theorem runLoop_attack_pow {code : List Cmd} {gs : GState} :
    ∀ {fuel : Nat} {st : IState} {ex : Nat} {out : RunOut},
    runLoop code gs fuel st ex = .ok out → 0 ≤ st.ipower →
    ∀ {adx ady : Int} {bb : Bool} {pw : Int},
    out.req = .attack adx ady bb pw → 0 ≤ pw := by
  intro fuel
  induction fuel with
  | zero =>
    intro st ex out h hp adx ady bb pw hr
    simp only [runLoop, Except.ok.injEq] at h
    subst h
    exact Request.noConfusion hr
  | succ n ih =>
    intro st ex out h hp adx ady bb pw hr
    rw [runLoop] at h
    by_cases hh : st.head < code.length
    · rw [dif_pos hh] at h
      cases hx : execCmd code gs st (code.get ⟨st.head, hh⟩) with
      | error e => rw [hx] at h; exact Except.noConfusion h
      | ok so =>
        rw [hx] at h
        cases so with
        | done r m =>
          simp only [Except.ok.injEq] at h
          subst h
          rw [execCmd_done_attack hx hr]
          exact hp
        | next st2 =>
          exact ih h (execCmd_ipower hx hp) hr
    · rw [dif_neg hh] at h
      simp only [Except.ok.injEq] at h
      subst h
      exact Request.noConfusion hr

/-- Any attack request `GermBrain.run` returns carries a nonnegative
power. -/
theorem run_attack_pow {br : Brain} {gs : GState} {out : RunOut}
    (h : br.run gs = .ok out)
    {adx ady : Int} {bb : Bool} {pw : Int}
    (hr : out.req = .attack adx ady bb pw) : 0 ≤ pw :=
  runLoop_attack_pow h (by simp [ist0]) hr

/-- The claimed bounds for one organism record. -/
def grecB (g : GermRec) : Prop :=
  0 ≤ g.energy ∧ g.energy ≤ MAX_GERM_ENERGY ∧
  0 ≤ g.stamina ∧ g.stamina ≤ GERM_STAMINA

/-- The claimed per-entity invariant: a live organism is in bounds. -/
def objOK : Obj → Prop
  | .germ g => g.alive = true → grecB g
  | .food _ _ _ => True

/-- The invariant over the whole registry (queued children included). -/
def TankOK (t : Tank) : Prop := ∀ p ∈ t.objs ++ t.newGerms, objOK p.2

/-- The invariant with the acting organism exempt mid-action (its energy
may temporarily stray before the final clamp), except that its stamina
keeps its bounds throughout. -/
def entryOK (id : Nat) (p : Nat × Obj) : Prop :=
  (p.1 ≠ id → objOK p.2) ∧
  (∀ g, p.2 = .germ g → g.alive = true →
    0 ≤ g.stamina ∧ g.stamina ≤ GERM_STAMINA)

def TankOKx (t : Tank) (id : Nat) : Prop :=
  ∀ p ∈ t.objs ++ t.newGerms, entryOK id p

theorem TankOK.weaken {t : Tank} (h : TankOK t) (id : Nat) : TankOKx t id := by
  intro p hp
  refine ⟨fun _ => h p hp, fun g hg ha => ?_⟩
  have := h p hp
  rw [hg] at this
  exact ⟨(this ha).2.2.1, (this ha).2.2.2⟩

theorem modifyGerm_entries (t : Tank) (id : Nat) (f : GermRec → GermRec) :
    (t.modifyGerm id f).objs ++ (t.modifyGerm id f).newGerms =
      (t.objs ++ t.newGerms).map (mgF id f) := by
  rw [modifyGerm_objs, modifyGerm_newGerms, List.map_append]

theorem setObj_entries (t : Tank) (id : Nat) (o : Obj) :
    (t.setObj id o).objs ++ (t.setObj id o).newGerms =
      (t.objs ++ t.newGerms).map (soF id o) := by
  show (t.objs.map (soF id o)) ++ (t.newGerms.map (soF id o)) = _
  rw [List.map_append]

/-- `modify_germ` on the exempt organism: it may do anything to the flags
and energy, as long as it leaves alive-flag resurrection and the stamina
alone. -/
theorem TankOKx_modify_id {t : Tank} {id : Nat} {f : GermRec → GermRec}
    (h : TankOKx t id)
    (hal : ∀ g, (f g).alive = true → g.alive = true)
    (hst : ∀ g, (f g).stamina = g.stamina) :
    TankOKx (t.modifyGerm id f) id := by
  intro q hq
  rw [modifyGerm_entries] at hq
  rcases List.mem_map.mp hq with ⟨p, hp, rfl⟩
  obtain ⟨i, ob⟩ := p
  rcases h ⟨i, ob⟩ hp with ⟨h1, h2⟩
  cases ob with
  | food a fx fy =>
    refine ⟨fun hne => trivial, fun g hg => ?_⟩
    simp [mgF] at hg
  | germ g0 =>
    by_cases heq : i = id
    · simp only [mgF, if_pos heq]
      refine ⟨fun hne => absurd heq hne, fun g hg ha => ?_⟩
      simp only [Obj.germ.injEq] at hg
      subst hg
      rw [hst g0]
      exact h2 g0 rfl (hal g0 ha)
    · simp only [mgF, if_neg heq]
      exact ⟨fun _ => h1 heq, h2⟩

theorem TankOKx_setObj {t : Tank} {id : Nat} (tid : Nat) (o : Obj)
    (h : TankOKx t id) (ho : objOK o)
    (hs : ∀ g, o = .germ g → g.alive = true →
      0 ≤ g.stamina ∧ g.stamina ≤ GERM_STAMINA) :
    TankOKx (t.setObj tid o) id := by
  intro q hq
  rw [setObj_entries] at hq
  rcases List.mem_map.mp hq with ⟨p, hp, rfl⟩
  rcases h p hp with ⟨h1, h2⟩
  unfold soF
  by_cases heq : p.1 = tid
  · rw [if_pos heq]
    exact ⟨fun _ => ho, hs⟩
  · rw [if_neg heq]
    exact ⟨h1, h2⟩

theorem TankOKx_setCell {t : Tank} {id : Nat} (cx cy : Nat) (v : Option Nat)
    (h : TankOKx t id) : TankOKx (t.setCell cx cy v) id := h

/-- With distinct keys, the registry's lookup finds each member entry. -/
theorem find?_key_of_mem {l : List (Nat × Obj)}
    (hnd : (l.map Prod.fst).Nodup) {p : Nat × Obj} (hp : p ∈ l) :
    l.find? (fun q => q.1 = p.1) = some p := by
  induction l with
  | nil => simp at hp
  | cons a l ih =>
    rw [List.map_cons, List.nodup_cons] at hnd
    rcases List.mem_cons.mp hp with rfl | hp2
    · simp [List.find?_cons]
    · rw [List.find?_cons]
      have hne : ¬a.1 = p.1 := by
        intro hEq
        exact hnd.1 (hEq ▸ List.mem_map_of_mem Prod.fst hp2)
      simp only [hne, decide_eq_true_eq, if_false]
      exact ih hnd.2 hp2

theorem getObj_eq_of_mem {t : Tank}
    (hnd : ((t.objs ++ t.newGerms).map Prod.fst).Nodup)
    {p : Nat × Obj} (hp : p ∈ t.objs ++ t.newGerms) :
    t.getObj p.1 = some p.2 := by
  unfold Tank.getObj
  rw [find?_key_of_mem hnd hp]
  rfl

/-- Well-formed ids: pairwise distinct and below the id counter. -/
def UIDs (t : Tank) : Prop :=
  ((t.objs ++ t.newGerms).map Prod.fst).Nodup ∧
  ∀ i ∈ (t.objs ++ t.newGerms).map Prod.fst, i < t.nextId

theorem entries_keys_modifyGerm (t : Tank) (id : Nat) (f : GermRec → GermRec) :
    (((t.modifyGerm id f).objs ++ (t.modifyGerm id f).newGerms).map Prod.fst) =
      ((t.objs ++ t.newGerms).map Prod.fst) := by
  rw [modifyGerm_entries, List.map_map]
  exact List.map_congr_left (fun p _ => mgF_fst id f p)

theorem entries_keys_setObj (t : Tank) (id : Nat) (o : Obj) :
    (((t.setObj id o).objs ++ (t.setObj id o).newGerms).map Prod.fst) =
      ((t.objs ++ t.newGerms).map Prod.fst) := by
  rw [setObj_entries, List.map_map]
  exact List.map_congr_left (fun p _ => soF_fst id o p)

theorem UIDs_modifyGerm {t : Tank} (id : Nat) (f : GermRec → GermRec)
    (h : UIDs t) : UIDs (t.modifyGerm id f) := by
  refine ⟨?_, ?_⟩
  · rw [entries_keys_modifyGerm]; exact h.1
  · rw [entries_keys_modifyGerm]; exact h.2

theorem UIDs_setObj {t : Tank} (id : Nat) (o : Obj)
    (h : UIDs t) : UIDs (t.setObj id o) := by
  refine ⟨?_, ?_⟩
  · rw [entries_keys_setObj]; exact h.1
  · rw [entries_keys_setObj]; exact h.2

theorem UIDs_setCell {t : Tank} (cx cy : Nat) (v : Option Nat)
    (h : UIDs t) : UIDs (t.setCell cx cy v) := h

theorem UIDs_dine (t : Tank) (id : Nat) (h : UIDs t) : UIDs (dine t id) := by
  unfold dine
  generalize neighborLocs = l
  induction l generalizing t with
  | nil => exact h
  | cons d ds ih =>
    rw [List.foldl_cons]
    refine ih _ ?_
    cases h1 : t.getObj id with
    | none => simpa only [h1] using h
    | some o =>
      cases o with
      | food a fx fy => simpa only [h1] using h
      | germ g =>
        simp only [h1]
        cases h2 : t.cellPy (get_relative_loc g.x g.y d.1 d.2) with
        | none => exact h
        | some tid =>
          simp only [h2]
          cases h3 : t.getObj tid with
          | none => exact h
          | some o2 =>
            cases o2 with
            | germ g2 => exact h
            | food af fx fy =>
              cases af
              · exact h
              · exact UIDs_setObj _ _ (UIDs_modifyGerm _ _ h)

theorem TankOKx_dine (t : Tank) (id : Nat) (h : TankOKx t id) :
    TankOKx (dine t id) id := by
  unfold dine
  generalize neighborLocs = l
  induction l generalizing t with
  | nil => exact h
  | cons d ds ih =>
    rw [List.foldl_cons]
    refine ih _ ?_
    cases h1 : t.getObj id with
    | none => simpa only [h1] using h
    | some o =>
      cases o with
      | food a fx fy => simpa only [h1] using h
      | germ g =>
        simp only [h1]
        cases h2 : t.cellPy (get_relative_loc g.x g.y d.1 d.2) with
        | none => exact h
        | some tid =>
          simp only [h2]
          cases h3 : t.getObj tid with
          | none => exact h
          | some o2 =>
            cases o2 with
            | germ g2 => exact h
            | food af fx fy =>
              cases af
              · exact h
              · refine TankOKx_setObj _ _ ?_ trivial (fun g hg => by simp at hg)
                exact TankOKx_modify_id h (fun g0 => by simp) (fun g0 => by simp)

/-- The attack's stamina/pain hit on the target. -/
def fstam (pw : Int) (g : GermRec) : GermRec :=
  { g with stamina := g.stamina - (pw : ℚ), pain := g.pain + (pw : ℚ) }

/-- An attack whose target survives: the kill-check guard says the (unique)
entry at the target id keeps positive stamina, and nonnegative power means
the stamina only went down. -/
theorem TankOKx_attack_nokill (t : Tank) (id tid : Nat)
    (f0 f1 : GermRec → GermRec) (pw : Int)
    (hal0 : ∀ g, (f0 g).alive = g.alive) (hst0 : ∀ g, (f0 g).stamina = g.stamina)
    (hal1 : ∀ g, (f1 g).alive = g.alive) (hst1 : ∀ g, (f1 g).stamina = g.stamina)
    (hpw : (0 : Int) ≤ pw)
    (hok : TankOKx t id)
    (hnd : ((t.objs ++ t.newGerms).map Prod.fst).Nodup)
    (tg3 : GermRec)
    (heq : (((t.modifyGerm id f0).modifyGerm id f1).modifyGerm tid
        (fstam pw)).getObj tid = some (.germ tg3))
    (hlive : ¬tg3.stamina ≤ 0) :
    TankOKx (((t.modifyGerm id f0).modifyGerm id f1).modifyGerm tid
        (fstam pw)) id := by
  have hpwq : (0 : ℚ) ≤ (pw : ℚ) := by exact_mod_cast hpw
  intro q hq
  have hent : (((t.modifyGerm id f0).modifyGerm id f1).modifyGerm tid
      (fstam pw)).objs ++
      (((t.modifyGerm id f0).modifyGerm id f1).modifyGerm tid
      (fstam pw)).newGerms =
      (t.objs ++ t.newGerms).map
        ((mgF tid (fstam pw)) ∘ (mgF id f1 ∘ mgF id f0)) := by
    rw [modifyGerm_entries, modifyGerm_entries, modifyGerm_entries,
      List.map_map, List.map_map]
    rfl
  rw [hent] at hq
  rcases List.mem_map.mp hq with ⟨p, hp, rfl⟩
  obtain ⟨i, ob⟩ := p
  rcases hok ⟨i, ob⟩ hp with ⟨h1, h2⟩
  cases ob with
  | food a fx fy =>
    refine ⟨fun hne => trivial, fun g hg => ?_⟩
    simp [mgF] at hg
  | germ g0 =>
    by_cases hit : i = tid
    · subst hit
      have hkeys : (((((t.modifyGerm id f0).modifyGerm id f1).modifyGerm i
          (fstam pw)).objs ++
          (((t.modifyGerm id f0).modifyGerm id f1).modifyGerm i
          (fstam pw)).newGerms).map Prod.fst).Nodup := by
        rw [entries_keys_modifyGerm, entries_keys_modifyGerm,
          entries_keys_modifyGerm]
        exact hnd
      have hmem0 : ((mgF i (fstam pw)) ∘ (mgF id f1 ∘ mgF id f0))
          (i, .germ g0) ∈
          (((t.modifyGerm id f0).modifyGerm id f1).modifyGerm i
          (fstam pw)).objs ++
          (((t.modifyGerm id f0).modifyGerm id f1).modifyGerm i
          (fstam pw)).newGerms := by
        rw [hent]
        exact List.mem_map_of_mem _ hp
      have hgo := getObj_eq_of_mem hkeys hmem0
      by_cases hii : i = id
      · subst hii
        have himg : ((mgF i (fstam pw)) ∘ (mgF i f1 ∘ mgF i f0))
            (i, Obj.germ g0) = (i, Obj.germ (fstam pw (f1 (f0 g0)))) := by
          simp [mgF, Function.comp]
        rw [himg] at hgo
        have hval : tg3 = fstam pw (f1 (f0 g0)) := by
          have h3 := heq.symm.trans hgo
          simpa using h3
        rw [himg]
        refine ⟨fun hne => absurd rfl hne, fun g hg ha => ?_⟩
        simp only [Obj.germ.injEq] at hg
        subst hg
        have h0 : g0.alive = true := by
          have halq : (fstam pw (f1 (f0 g0))).alive = g0.alive := by
            show (f1 (f0 g0)).alive = g0.alive
            rw [hal1, hal0]
          rw [← halq]
          exact ha
        have hsb := h2 g0 rfl h0
        rw [hval] at hlive
        constructor
        · by_contra hcon
          push_neg at hcon
          exact hlive (le_of_lt hcon)
        · show (f1 (f0 g0)).stamina - (pw : ℚ) ≤ GERM_STAMINA
          rw [hst1, hst0]
          linarith [hsb.2]
      · have himg : ((mgF i (fstam pw)) ∘ (mgF id f1 ∘ mgF id f0))
            (i, Obj.germ g0) = (i, Obj.germ (fstam pw g0)) := by
          simp [mgF, Function.comp, hii]
        rw [himg] at hgo
        have hval : tg3 = fstam pw g0 := by
          have h3 := heq.symm.trans hgo
          simpa using h3
        rw [himg]
        rw [hval] at hlive
        have hlow : (0 : ℚ) ≤ g0.stamina - (pw : ℚ) := by
          by_contra hcon
          push_neg at hcon
          exact hlive (le_of_lt hcon)
        refine ⟨fun hne => ?_, fun g hg ha => ?_⟩
        · intro halv
          have h0 : g0.alive = true := halv
          have hgb := h1 hii h0
          have hsb := h2 g0 rfl h0
          refine ⟨hgb.1, hgb.2.1, hlow, ?_⟩
          show g0.stamina - (pw : ℚ) ≤ GERM_STAMINA
          linarith [hsb.2]
        · simp only [Obj.germ.injEq] at hg
          subst hg
          have h0 : g0.alive = true := ha
          have hsb := h2 g0 rfl h0
          refine ⟨hlow, ?_⟩
          show g0.stamina - (pw : ℚ) ≤ GERM_STAMINA
          linarith [hsb.2]
    · by_cases hii : i = id
      · subst hii
        have himg : ((mgF tid (fstam pw)) ∘ (mgF i f1 ∘ mgF i f0))
            (i, Obj.germ g0) = (i, Obj.germ (f1 (f0 g0))) := by
          simp [mgF, Function.comp, hit]
        rw [himg]
        refine ⟨fun hne => absurd rfl hne, fun g hg ha => ?_⟩
        simp only [Obj.germ.injEq] at hg
        subst hg
        have h0 : g0.alive = true := by
          rw [hal1, hal0] at ha
          exact ha
        have hsb := h2 g0 rfl h0
        rw [hst1, hst0]
        exact hsb
      · have himg : ((mgF tid (fstam pw)) ∘ (mgF id f1 ∘ mgF id f0))
            (i, Obj.germ g0) = (i, Obj.germ g0) := by
          simp [mgF, Function.comp, hit, hii]
        rw [himg]
        exact ⟨fun _ => h1 hii, h2⟩

/-- A killing attack: the target ends marked dead, so only the attacker's
untouched stamina matters for the invariant. -/
theorem TankOKx_attack_kill (t : Tank) (id tid : Nat)
    (f0 f1 f3 : GermRec → GermRec) (pw : Int)
    (hal0 : ∀ g, (f0 g).alive = g.alive) (hst0 : ∀ g, (f0 g).stamina = g.stamina)
    (hal1 : ∀ g, (f1 g).alive = g.alive) (hst1 : ∀ g, (f1 g).stamina = g.stamina)
    (hal3 : ∀ g, (f3 g).alive = g.alive) (hst3 : ∀ g, (f3 g).stamina = g.stamina)
    (hok : TankOKx t id) :
    TankOKx (((((t.modifyGerm id f0).modifyGerm id f1).modifyGerm tid
        (fstam pw)).modifyGerm id f3).modifyGerm tid
        (fun g => { g with alive := false })) id := by
  intro q hq
  have hent : (((((t.modifyGerm id f0).modifyGerm id f1).modifyGerm tid
      (fstam pw)).modifyGerm id f3).modifyGerm tid
      (fun g => { g with alive := false })).objs ++
      (((((t.modifyGerm id f0).modifyGerm id f1).modifyGerm tid
      (fstam pw)).modifyGerm id f3).modifyGerm tid
      (fun g => { g with alive := false })).newGerms =
      (t.objs ++ t.newGerms).map
        ((mgF tid (fun g => { g with alive := false })) ∘ (mgF id f3 ∘
          (mgF tid (fstam pw) ∘ (mgF id f1 ∘ mgF id f0)))) := by
    rw [modifyGerm_entries, modifyGerm_entries, modifyGerm_entries,
      modifyGerm_entries, modifyGerm_entries, List.map_map, List.map_map,
      List.map_map, List.map_map]
    rfl
  rw [hent] at hq
  rcases List.mem_map.mp hq with ⟨p, hp, rfl⟩
  obtain ⟨i, ob⟩ := p
  rcases hok ⟨i, ob⟩ hp with ⟨h1, h2⟩
  cases ob with
  | food a fx fy =>
    refine ⟨fun hne => trivial, fun g hg => ?_⟩
    simp [mgF] at hg
  | germ g0 =>
    by_cases hit : i = tid
    · subst hit
      by_cases hii : i = id
      · subst hii
        have himg : ((mgF i (fun g => { g with alive := false })) ∘ (mgF i f3 ∘
            (mgF i (fstam pw) ∘ (mgF i f1 ∘ mgF i f0)))) (i, Obj.germ g0) =
            (i, Obj.germ { f3 (fstam pw (f1 (f0 g0))) with alive := false }) := by
          simp [mgF, Function.comp]
        rw [himg]
        refine ⟨fun hne => absurd rfl hne, fun g hg ha => ?_⟩
        simp only [Obj.germ.injEq] at hg
        subst hg
        simp at ha
      · have himg : ((mgF i (fun g => { g with alive := false })) ∘ (mgF id f3 ∘
            (mgF i (fstam pw) ∘ (mgF id f1 ∘ mgF id f0)))) (i, Obj.germ g0) =
            (i, Obj.germ { fstam pw g0 with alive := false }) := by
          simp [mgF, Function.comp, hii]
        rw [himg]
        refine ⟨fun hne => ?_, fun g hg ha => ?_⟩
        · intro halv
          simp at halv
        · simp only [Obj.germ.injEq] at hg
          subst hg
          simp at ha
    · by_cases hii : i = id
      · subst hii
        have himg : ((mgF tid (fun g => { g with alive := false })) ∘ (mgF i f3 ∘
            (mgF tid (fstam pw) ∘ (mgF i f1 ∘ mgF i f0)))) (i, Obj.germ g0) =
            (i, Obj.germ (f3 (f1 (f0 g0)))) := by
          simp [mgF, Function.comp, hit]
        rw [himg]
        refine ⟨fun hne => absurd rfl hne, fun g hg ha => ?_⟩
        simp only [Obj.germ.injEq] at hg
        subst hg
        have h0 : g0.alive = true := by
          rw [hal3, hal1, hal0] at ha
          exact ha
        have hsb := h2 g0 rfl h0
        rw [hst3, hst1, hst0]
        exact hsb
      · have himg : ((mgF tid (fun g => { g with alive := false })) ∘ (mgF id f3 ∘
            (mgF tid (fstam pw) ∘ (mgF id f1 ∘ mgF id f0)))) (i, Obj.germ g0) =
            (i, Obj.germ g0) := by
          simp [mgF, Function.comp, hit, hii]
        rw [himg]
        exact ⟨fun _ => h1 hii, h2⟩

/-- Queuing a newborn whose record is in bounds keeps the invariant. -/
theorem TankOKx_birth (t : Tank) (nx ny : Nat) (g : GermRec)
    (hg : objOK (.germ g))
    (hs : g.alive = true → 0 ≤ g.stamina ∧ g.stamina ≤ GERM_STAMINA)
    {id : Nat} (h : TankOKx t id) :
    TankOKx { t.setCell nx ny (some t.nextId) with
              newGerms := t.newGerms ++ [(t.nextId, .germ g)],
              nextId := t.nextId + 1 } id := by
  intro q hq
  have hq2 : q ∈ (t.objs ++ t.newGerms) ++ [(t.nextId, Obj.germ g)] := by
    rw [List.append_assoc]
    exact hq
  rcases List.mem_append.mp hq2 with hin | hnew
  · exact h q hin
  · have : q = (t.nextId, Obj.germ g) := by simpa using hnew
    subst this
    refine ⟨fun _ => hg, fun g2 hg2 ha => ?_⟩
    simp only [Obj.germ.injEq] at hg2
    subst hg2
    exact hs ha

/-- Queuing a newborn under a fresh id keeps the ids well-formed. -/
theorem UIDs_birth (t : Tank) (nx ny : Nat) (o : Obj) (hu : UIDs t) :
    UIDs { t.setCell nx ny (some t.nextId) with
           newGerms := t.newGerms ++ [(t.nextId, o)],
           nextId := t.nextId + 1 } := by
  obtain ⟨hnd, hlt⟩ := hu
  constructor
  · show ((t.objs ++ (t.newGerms ++ [(t.nextId, o)])).map Prod.fst).Nodup
    rw [← List.append_assoc, List.map_append]
    rw [List.nodup_append]
    refine ⟨hnd, List.nodup_singleton _, ?_⟩
    intro a ha hb
    have h1 : a < t.nextId := hlt a ha
    have h2 : a = t.nextId := by simpa using hb
    omega
  · show ∀ i ∈ (t.objs ++ (t.newGerms ++ [(t.nextId, o)])).map Prod.fst,
      i < t.nextId + 1
    intro i hi
    rw [← List.append_assoc, List.map_append] at hi
    rcases List.mem_append.mp hi with h | h
    · exact Nat.lt_succ_of_lt (hlt i h)
    · have : i = t.nextId := by simpa using h
      omega

/-- Request resolution keeps ids well-formed (only a birth queues a new
entry, under the fresh id counter). -/
theorem UIDs_process_request (t : Tank) (id : Nat) (req : Request)
    (x y mutN : Nat) (mutChs : Nat → MutChoice) (t1 : Tank)
    (h : process_request t id req x y mutN mutChs = .ok t1)
    (hu : UIDs t) : UIDs t1 := by
  unfold process_request at h
  simp only [] at h
  repeat' split at h
  all_goals
    first
    | (simp only [Except.ok.injEq] at h; subst h;
       first
       | exact UIDs_modifyGerm _ _ hu
       | exact UIDs_modifyGerm _ _ (UIDs_modifyGerm _ _ hu)
       | exact UIDs_setCell _ _ _ (UIDs_setCell _ _ _
           (UIDs_modifyGerm _ _ (UIDs_modifyGerm _ _ hu)))
       | exact UIDs_modifyGerm _ _ (UIDs_modifyGerm _ _
           (UIDs_modifyGerm _ _ hu))
       | exact UIDs_modifyGerm _ _ (UIDs_modifyGerm _ _ (UIDs_modifyGerm _ _
           (UIDs_modifyGerm _ _ (UIDs_modifyGerm _ _ hu))))
       | exact UIDs_birth _ _ _ _ (UIDs_modifyGerm _ _
           (UIDs_modifyGerm _ _ hu)))
    | simp at h

/-- The attack's degenerate arm: if the looked-up target is not an
organism, the stamina hit mapped over the registry touched no live entry
at the target id at all (ids are unique), so the invariant carries over. -/
theorem TankOKx_attack_noGerm (t : Tank) (id tid : Nat)
    (f0 f1 : GermRec → GermRec) (pw : Int)
    (hal0 : ∀ g, (f0 g).alive = g.alive) (hst0 : ∀ g, (f0 g).stamina = g.stamina)
    (hal1 : ∀ g, (f1 g).alive = g.alive) (hst1 : ∀ g, (f1 g).stamina = g.stamina)
    (hok : TankOKx t id)
    (hnd : ((t.objs ++ t.newGerms).map Prod.fst).Nodup)
    (x : Option Obj)
    (heq : (((t.modifyGerm id f0).modifyGerm id f1).modifyGerm tid
        (fstam pw)).getObj tid = x)
    (hno : ∀ tg3 : GermRec, x = some (.germ tg3) → False) :
    TankOKx (((t.modifyGerm id f0).modifyGerm id f1).modifyGerm tid
        (fstam pw)) id := by
  intro q hq
  have hent : (((t.modifyGerm id f0).modifyGerm id f1).modifyGerm tid
      (fstam pw)).objs ++
      (((t.modifyGerm id f0).modifyGerm id f1).modifyGerm tid
      (fstam pw)).newGerms =
      (t.objs ++ t.newGerms).map
        ((mgF tid (fstam pw)) ∘ (mgF id f1 ∘ mgF id f0)) := by
    rw [modifyGerm_entries, modifyGerm_entries, modifyGerm_entries,
      List.map_map, List.map_map]
    rfl
  rw [hent] at hq
  rcases List.mem_map.mp hq with ⟨p, hp, rfl⟩
  obtain ⟨i, ob⟩ := p
  rcases hok ⟨i, ob⟩ hp with ⟨h1, h2⟩
  cases ob with
  | food a fx fy =>
    refine ⟨fun hne => trivial, fun g hg => ?_⟩
    simp [mgF] at hg
  | germ g0 =>
    by_cases hit : i = tid
    · subst hit
      have hkeys : (((((t.modifyGerm id f0).modifyGerm id f1).modifyGerm i
          (fstam pw)).objs ++
          (((t.modifyGerm id f0).modifyGerm id f1).modifyGerm i
          (fstam pw)).newGerms).map Prod.fst).Nodup := by
        rw [entries_keys_modifyGerm, entries_keys_modifyGerm,
          entries_keys_modifyGerm]
        exact hnd
      have hmem0 : ((mgF i (fstam pw)) ∘ (mgF id f1 ∘ mgF id f0))
          (i, .germ g0) ∈
          (((t.modifyGerm id f0).modifyGerm id f1).modifyGerm i
          (fstam pw)).objs ++
          (((t.modifyGerm id f0).modifyGerm id f1).modifyGerm i
          (fstam pw)).newGerms := by
        rw [hent]
        exact List.mem_map_of_mem _ hp
      have hgo := getObj_eq_of_mem hkeys hmem0
      by_cases hii : i = id
      · subst hii
        have himg : ((mgF i (fstam pw)) ∘ (mgF i f1 ∘ mgF i f0))
            (i, Obj.germ g0) = (i, Obj.germ (fstam pw (f1 (f0 g0)))) := by
          simp [mgF, Function.comp]
        rw [himg] at hgo
        have hx : x = some (Obj.germ (fstam pw (f1 (f0 g0)))) := by
          rw [← heq, hgo]
        exact (hno _ hx).elim
      · have himg : ((mgF i (fstam pw)) ∘ (mgF id f1 ∘ mgF id f0))
            (i, Obj.germ g0) = (i, Obj.germ (fstam pw g0)) := by
          simp [mgF, Function.comp, hii]
        rw [himg] at hgo
        have hx : x = some (Obj.germ (fstam pw g0)) := by
          rw [← heq, hgo]
        exact (hno _ hx).elim
    · by_cases hii : i = id
      · subst hii
        have himg : ((mgF tid (fstam pw)) ∘ (mgF i f1 ∘ mgF i f0))
            (i, Obj.germ g0) = (i, Obj.germ (f1 (f0 g0))) := by
          simp [mgF, Function.comp, hit]
        rw [himg]
        refine ⟨fun hne => absurd rfl hne, fun g hg ha => ?_⟩
        simp only [Obj.germ.injEq] at hg
        subst hg
        have h0 : g0.alive = true := by
          rw [hal1, hal0] at ha
          exact ha
        have hsb := h2 g0 rfl h0
        rw [hst1, hst0]
        exact hsb
      · have himg : ((mgF tid (fstam pw)) ∘ (mgF id f1 ∘ mgF id f0))
            (i, Obj.germ g0) = (i, Obj.germ g0) := by
          simp [mgF, Function.comp, hit, hii]
        rw [himg]
        exact ⟨fun _ => h1 hii, h2⟩

set_option maxHeartbeats 4000000 in
/-- Request resolution preserves the invariant (acting organism exempt up
to its stamina): every energy debit is clamped later, the newborn starts
in bounds, and an attacked survivor's stamina stays in bounds. -/
theorem prOK (t : Tank) (id : Nat) (req : Request) (x y mutN : Nat)
    (mutChs : Nat → MutChoice) (t1 : Tank)
    (hnd : ((t.objs ++ t.newGerms).map Prod.fst).Nodup)
    (hpw : ∀ adx ady bb pw, req = .attack adx ady bb pw → (0 : Int) ≤ pw)
    (h : process_request t id req x y mutN mutChs = .ok t1)
    (hok : TankOKx t id) : TankOKx t1 id := by
  have hpw0 : ∀ adx ady bb pw, req = .attack adx ady bb pw → (0 : Int) ≤ pw :=
    hpw
  unfold process_request at h
  simp only [] at h
  repeat' split at h
  all_goals
    first
    | (simp only [Except.ok.injEq] at h; subst h;
       first
       | exact TankOKx_modify_id hok (fun g ha => ha) (fun g => rfl)
       | exact TankOKx_modify_id (TankOKx_modify_id hok (fun g ha => ha)
           (fun g => rfl)) (fun g ha => ha) (fun g => rfl)
       | exact TankOKx_setCell _ _ _ (TankOKx_setCell _ _ _
           (TankOKx_modify_id (TankOKx_modify_id hok (fun g ha => ha)
             (fun g => rfl)) (fun g ha => ha) (fun g => rfl)))
       | exact TankOKx_birth _ _ _ _
           (by intro ha
               exact ⟨by show (0 : ℚ) ≤ INIT_GERM_ENERGY; decide,
                 by show INIT_GERM_ENERGY ≤ MAX_GERM_ENERGY; decide,
                 by show (0 : ℚ) ≤ GERM_STAMINA; decide,
                 by show GERM_STAMINA ≤ GERM_STAMINA; decide⟩)
           (fun ha => ⟨by show (0 : ℚ) ≤ GERM_STAMINA; decide,
             by show GERM_STAMINA ≤ GERM_STAMINA; decide⟩)
           (TankOKx_modify_id (TankOKx_modify_id hok (fun g ha => ha)
             (fun g => rfl)) (fun g ha => ha) (fun g => rfl))
       | exact TankOKx_attack_kill _ _ _ _ _ _ _ (fun g => rfl) (fun g => rfl)
           (fun g => rfl) (fun g => rfl) (fun g => rfl) (fun g => rfl) hok)
    | (rename_i tg0 heq3 hlive3 hb
       first
       | rw [if_pos hb] at heq3
       | rw [if_neg hb] at heq3
       simp only [Except.ok.injEq] at h
       subst h
       exact TankOKx_attack_nokill _ _ _ _ _ _ (fun g => rfl) (fun g => rfl)
         (fun g => rfl) (fun g => rfl) (hpw0 _ _ _ _ rfl) hok hnd tg0 heq3
         hlive3)
    | (rename_i xv hno3 hb
       first
       | rw [if_pos hb] at hno3
       | rw [if_neg hb] at hno3
       simp only [Except.ok.injEq] at h
       subst h
       exact TankOKx_attack_noGerm _ _ _ _ _ _ (fun g => rfl) (fun g => rfl)
         (fun g => rfl) (fun g => rfl) hok hnd _ rfl hno3)
    | simp at h

/-- An entity an id dereferences is in the registry. -/
theorem getObj_mem {t : Tank} {i : Nat} {ob : Obj}
    (h : t.getObj i = some ob) : ∃ p ∈ t.objs ++ t.newGerms, p.2 = ob := by
  unfold Tank.getObj at h
  cases hf : (t.objs ++ t.newGerms).find? (fun p => p.1 = i) with
  | none => rw [hf] at h; simp at h
  | some p =>
    rw [hf] at h
    refine ⟨p, List.mem_of_find?_eq_some hf, ?_⟩
    simpa using h

/-- The end-of-turn clamp: pain reset, death on exhausted energy, and the
energy cap restore the full invariant for the acting organism. -/
theorem finalizeOK (t : Tank) (id : Nat) (h : TankOKx t id) :
    TankOK (t.modifyGerm id (fun g0 =>
      let g1 : GermRec := { g0 with pain := 0 }
      let g2 : GermRec :=
        if g1.energy ≤ 0 then { g1 with alive := false } else g1
      { g2 with energy := min g2.energy MAX_GERM_ENERGY })) := by
  intro q hq
  rw [modifyGerm_entries] at hq
  rcases List.mem_map.mp hq with ⟨p, hp, rfl⟩
  obtain ⟨i, ob⟩ := p
  rcases h ⟨i, ob⟩ hp with ⟨h1, h2⟩
  cases ob with
  | food a fx fy => simp [mgF, objOK]
  | germ g0 =>
    by_cases hii : i = id
    · subst hii
      show objOK (mgF i _ (i, Obj.germ g0)).2
      simp only [mgF, if_pos rfl]
      by_cases he : g0.energy ≤ 0
      · intro ha
        simp [he] at ha
      · intro ha
        simp only [he, if_neg, if_false] at ha ⊢
        have halp : g0.alive = true := by simpa [he] using ha
        have hst := h2 g0 rfl halp
        push_neg at he
        refine ⟨?_, ?_, ?_, ?_⟩
        · show (0 : ℚ) ≤ min ({ g0 with pain := 0 } : GermRec).energy
            MAX_GERM_ENERGY
          simp only [le_min_iff]
          constructor
          · show (0 : ℚ) ≤ g0.energy
            linarith
          · show (0 : ℚ) ≤ MAX_GERM_ENERGY
            decide
        · show min ({ g0 with pain := 0 } : GermRec).energy MAX_GERM_ENERGY ≤
            MAX_GERM_ENERGY
          exact min_le_right _ _
        · exact hst.1
        · exact hst.2
    · have himg : mgF id (fun g0 =>
          let g1 : GermRec := { g0 with pain := 0 }
          let g2 : GermRec :=
            if g1.energy ≤ 0 then { g1 with alive := false } else g1
          { g2 with energy := min g2.energy MAX_GERM_ENERGY })
          (i, Obj.germ g0) = (i, Obj.germ g0) := by
        simp [mgF, hii]
      rw [himg]
      exact h1 hii

/-- One organism's whole action phase restores the full invariant. -/
theorem germActOK (o : Oracle) (k : Nat) (t : Tank) (id : Nat) (t1 : Tank)
    (h : germAct o k t id = .ok t1)
    (hu : UIDs t) (hok : TankOK t) : UIDs t1 ∧ TankOK t1 := by
  unfold germAct at h
  cases hget : (dine t id).getObj id with
  | none =>
    simp only [hget, Except.ok.injEq] at h
    subst h
    exact ⟨hu, hok⟩
  | some ob =>
    cases ob with
    | food a fx fy =>
      simp only [hget, Except.ok.injEq] at h
      subst h
      exact ⟨hu, hok⟩
    | germ g0 =>
      simp only [hget] at h
      cases hrun : g0.brain.run ⟨g0.energy,
          1 - 9 * Q_TENTH * ((g0.y : ℚ) * INV_TANK_HEIGHT), g0.stamina,
          g0.pain, g0.success, (viewState (dine t id) g0.x g0.y).1,
          (viewState (dine t id) g0.x g0.y).2⟩ with
      | error f => simp [hrun] at h
      | ok out =>
        simp only [hrun] at h
        cases hpr : process_request ((dine t id).modifyGerm id (fun g1 =>
            { g1 with brain := { g1.brain with memory := out.memv } })) id
            out.req g0.x g0.y (o.mutN k) (o.mutCh k) with
        | error e => simp [hpr] at h
        | ok t3 =>
          simp only [hpr, Except.ok.injEq] at h
          subst h
          have huD : UIDs ((dine t id).modifyGerm id (fun g1 =>
              { g1 with brain := { g1.brain with memory := out.memv } })) :=
            UIDs_modifyGerm _ _ (UIDs_dine _ _ hu)
          have hokD : TankOKx ((dine t id).modifyGerm id (fun g1 =>
              { g1 with brain := { g1.brain with memory := out.memv } }))
              id :=
            TankOKx_modify_id (TankOKx_dine _ _ (hok.weaken id))
              (fun g ha => ha) (fun g => rfl)
          have hok3 : TankOKx t3 id :=
            prOK _ _ _ _ _ _ _ _ huD.1
              (fun adx ady bb pw hr => run_attack_pow hrun hr) hpr hokD
          exact ⟨UIDs_modifyGerm _ _ (UIDs_process_request _ _ _ _ _ _ _ _
            hpr huD), finalizeOK _ _ hok3⟩

theorem TankOK_modify (t : Tank) (id : Nat) (f : GermRec → GermRec)
    (hf : ∀ g, objOK (.germ g) → objOK (.germ (f g)))
    (h : TankOK t) : TankOK (t.modifyGerm id f) := by
  intro q hq
  rw [modifyGerm_entries] at hq
  rcases List.mem_map.mp hq with ⟨p, hp, rfl⟩
  obtain ⟨i, ob⟩ := p
  have hpo := h ⟨i, ob⟩ hp
  cases ob with
  | food a fx fy => simp [mgF, objOK]
  | germ g0 =>
    by_cases hii : i = id
    · have himg : mgF id f (i, Obj.germ g0) = (i, Obj.germ (f g0)) := by
        simp [mgF, hii]
      rw [himg]
      exact hf g0 hpo
    · have himg : mgF id f (i, Obj.germ g0) = (i, Obj.germ g0) := by
        simp [mgF, hii]
      rw [himg]
      exact hpo

theorem TankOK_setObj (t : Tank) (id : Nat) (o : Obj) (ho : objOK o)
    (h : TankOK t) : TankOK (t.setObj id o) := by
  intro q hq
  rw [setObj_entries] at hq
  rcases List.mem_map.mp hq with ⟨p, hp, rfl⟩
  have hpo := h p hp
  unfold soF
  by_cases hii : p.1 = id
  · rw [if_pos hii]
    exact ho
  · rw [if_neg hii]
    exact hpo

theorem TankOK_foodMove (o : Oracle) (k : Nat) (t : Tank) (id fx fy : Nat)
    (h : TankOK t) : TankOK (foodMove o k t id fx fy) := by
  unfold foodMove
  repeat' split
  all_goals
    first
    | exact h
    | exact TankOK_setObj _ _ _ trivial h

theorem UIDs_foodMove (o : Oracle) (k : Nat) (t : Tank) (id fx fy : Nat)
    (h : UIDs t) : UIDs (foodMove o k t id fx fy) := by
  unfold foodMove
  repeat' split
  all_goals
    first
    | exact h
    | exact UIDs_setCell _ _ _ (UIDs_setCell _ _ _ (UIDs_setObj _ _ h))

/-- One registry entry's turn preserves well-formed ids and the invariant. -/
theorem stepObjOK (o : Oracle) (k : Nat) (b : Bool) (t : Tank) (id : Nat)
    (t1 : Tank) (h : stepObj o k b t id = .ok t1)
    (hu : UIDs t) (hok : TankOK t) : UIDs t1 ∧ TankOK t1 := by
  unfold stepObj at h
  cases hget : t.getObj id with
  | none =>
    simp only [hget, Except.ok.injEq] at h
    subst h
    exact ⟨hu, hok⟩
  | some obj =>
    simp only [hget] at h
    obtain ⟨p, hpmem, hp2⟩ := getObj_mem hget
    have hobjok : objOK obj := by rw [← hp2]; exact hok p hpmem
    by_cases halv : obj.alive = true
    · rw [if_neg (not_not_intro halv)] at h
      cases obj with
      | food af fx fy =>
        simp only [] at h
        by_cases hb : b = true
        · rw [if_neg (not_not_intro hb)] at h
          simp only [Except.ok.injEq] at h
          subst h
          exact ⟨hu, hok⟩
        · rw [if_pos hb] at h
          simp only [Except.ok.injEq] at h
          subst h
          exact ⟨UIDs_foodMove _ _ _ _ _ _ hu, TankOK_foodMove _ _ _ _ _ _ hok⟩
      | germ g =>
        simp only [] at h
        by_cases hb : b = true
        · rw [if_neg (not_not_intro hb)] at h
          by_cases hgb : g.burst = true
          · rw [if_pos hgb] at h
            exact germActOK _ _ _ _ _ h hu hok
          · rw [if_neg hgb] at h
            simp only [Except.ok.injEq] at h
            subst h
            exact ⟨hu, hok⟩
        · rw [if_pos hb] at h
          by_cases hd : o.death k = true
          · rw [if_pos hd] at h
            simp only [Except.ok.injEq] at h
            subst h
            refine ⟨UIDs_modifyGerm _ _ hu, TankOK_modify _ _ _ ?_ hok⟩
            intro g2 hg2 ha
            simp at ha
          · rw [if_neg hd] at h
            have hga : g.alive = true := halv
            have hg4 := hobjok halv
            split at h
            · simp only [Except.ok.injEq] at h
              subst h
              refine ⟨UIDs_setObj _ _ hu,
                TankOK_setObj _ _ _ (fun hcontra => absurd hcontra (by simp))
                  hok⟩
            · rename_i hene
              refine germActOK _ _ _ _ _ h (UIDs_setObj _ _ hu)
                (TankOK_setObj _ _ _ ?_ hok)
              intro ha
              have hene' : ¬(g.energy - UPKEEP_COST * (Q_TENTH +
                  9 * Q_TENTH * ((g.y : ℚ) * INV_TANK_HEIGHT)) ≤ 0) := hene
              push_neg at hene'
              constructor
              · show (0 : ℚ) ≤ min (g.energy - UPKEEP_COST * (Q_TENTH +
                  9 * Q_TENTH * ((g.y : ℚ) * INV_TANK_HEIGHT)))
                  MAX_GERM_ENERGY
                rw [le_min_iff]
                exact ⟨le_of_lt hene', by decide⟩
              constructor
              · show min (g.energy - UPKEEP_COST * (Q_TENTH +
                  9 * Q_TENTH * ((g.y : ℚ) * INV_TANK_HEIGHT)))
                  MAX_GERM_ENERGY ≤ MAX_GERM_ENERGY
                exact min_le_right _ _
              constructor
              · show (0 : ℚ) ≤ min (g.stamina + GERM_STAMINA_REGEN)
                  GERM_STAMINA
                rw [le_min_iff]
                exact ⟨add_nonneg hg4.2.2.1 (by decide), by decide⟩
              · show min (g.stamina + GERM_STAMINA_REGEN) GERM_STAMINA ≤
                  GERM_STAMINA
                exact min_le_right _ _
    · rw [if_pos halv] at h
      simp only [Except.ok.injEq] at h
      subst h
      exact ⟨hu, hok⟩

/-- The whole registry iteration preserves ids and the invariant. -/
theorem tickLoopOK (o : Oracle) (b : Bool) (l : List Nat) (k : Nat)
    (t t1 : Tank) (h : tickLoop o b l k t = .ok t1)
    (hu : UIDs t) (hok : TankOK t) : UIDs t1 ∧ TankOK t1 := by
  induction l generalizing k t with
  | nil =>
    simp only [tickLoop, Except.ok.injEq] at h
    subst h
    exact ⟨hu, hok⟩
  | cons id rest ih =>
    rw [tickLoop] at h
    cases hs : stepObj o k b t id with
    | error e => simp [hs] at h
    | ok t2 =>
      simp only [hs] at h
      obtain ⟨hu2, hok2⟩ := stepObjOK _ _ _ _ _ _ hs hu hok
      exact ih _ _ h hu2 hok2

theorem TankOK_kill_germ (t : Tank) (i : Nat) (h : TankOK t) :
    TankOK (kill_germ t i) := by
  unfold kill_germ
  split
  · intro q hq
    rcases List.mem_append.mp hq with hq | hq
    · exact h q (List.mem_append.mpr (Or.inl (List.mem_of_mem_filter hq)))
    · exact h q (List.mem_append.mpr (Or.inr (List.mem_of_mem_filter hq)))
  · exact h

/-- Reconciliation removes dead entries and admits the queued newborns; no
record changes, so the invariant carries over. -/
theorem TankOK_reconcile (t : Tank) (h : TankOK t) : TankOK (reconcile t) := by
  have hfold : ∀ (l : List (Nat × Obj)) (t0 : Tank), TankOK t0 →
      TankOK (l.foldl (fun acc p => kill_germ acc p.1) t0) := by
    intro l
    induction l with
    | nil => intro t0 ht; exact ht
    | cons a l ih => intro t0 ht; exact ih _ (TankOK_kill_germ _ _ ht)
  intro q hq
  refine hfold (t.objs.filter fun p => ¬p.2.alive) t h q ?_
  simpa [reconcile] using hq

theorem TankOK_add_food (t : Tank) (x y : Nat) (h : TankOK t) :
    TankOK (add_food t x y) := by
  intro q hq
  have hq2 : q ∈ (t.objs ++ [(t.nextId, Obj.food true x y)]) ++ t.newGerms := by
    simpa [add_food] using hq
  rcases List.mem_append.mp hq2 with hq3 | hq3
  · rcases List.mem_append.mp hq3 with hq4 | hq4
    · exact h q (List.mem_append.mpr (Or.inl hq4))
    · have : q = (t.nextId, Obj.food true x y) := by simpa using hq4
      subst this
      trivial
  · exact h q (List.mem_append.mpr (Or.inr hq3))

theorem TankOK_regrowLoop (o : Oracle) (ta : ℚ) :
    ∀ (n i : Nat) (c : Int) (t : Tank), TankOK t →
      TankOK (regrowLoop o ta n i c t) := by
  intro n
  induction n with
  | zero => intro i c t h; exact h
  | succ m ih =>
    intro i c t h
    rw [regrowLoop]
    simp only []
    split
    · exact ih _ _ _ h
    · split
      · exact TankOK_add_food _ _ _ h
      · exact ih _ _ _ (TankOK_add_food _ _ _ h)

theorem TankOK_regrowFood (o : Oracle) (t : Tank) (h : TankOK t) :
    TankOK (regrowFood o t) := by
  unfold regrowFood
  simp only []
  split
  · exact TankOK_regrowLoop _ _ _ _ _ _ h
  · exact h

/-- C8: after any tick (standard or burst) of a well-formed world, every
live organism's energy lies in `[0, MAX_GERM_ENERGY]` and its stamina in
`[0, GERM_STAMINA]`; the bound is preserved through metabolism, eating,
action resolution and reconciliation. -/
theorem c8_energy_stamina_invariant (o : Oracle) (b : Bool) (t t1 : Tank)
    (hu : UIDs t) (hok : TankOK t)
    (h : update o b t = .ok t1) :
    ∀ id g, t1.getObj id = some (.germ g) → g.alive = true →
      0 ≤ g.energy ∧ g.energy ≤ MAX_GERM_ENERGY ∧
      0 ≤ g.stamina ∧ g.stamina ≤ GERM_STAMINA := by
  unfold update at h
  cases hloop : tickLoop o b (t.objs.map Prod.fst) 0 t with
  | error e => rw [hloop] at h; exact Except.noConfusion h
  | ok t2 =>
    rw [hloop] at h
    simp only [Except.ok.injEq] at h
    subst h
    obtain ⟨hu2, hok2⟩ := tickLoopOK _ _ _ _ _ _ hloop hu hok
    have hfin : TankOK (regrowFood o (reconcile t2)) :=
      TankOK_regrowFood _ _ (TankOK_reconcile _ hok2)
    intro id g hg ha
    obtain ⟨p, hpmem, hp2⟩ := getObj_mem hg
    have hq := hfin p hpmem
    rw [hp2] at hq
    exact hq ha

def gC8 : GermRec := ⟨brain_ret, true, 20, 20, 50, 10, false, false, 0⟩

def c8Objs : List (Nat × Obj) := [(0, .germ gC8)]

def tankC8 : Tank := ⟨buildGrid c8Objs, c8Objs, [], 675, 1⟩

theorem c8_energy_stamina_invariant_witness :
    UIDs tankC8 ∧
    (0 ≤ gC8.energy ∧ gC8.energy ≤ MAX_GERM_ENERGY ∧
     0 ≤ gC8.stamina ∧ gC8.stamina ≤ GERM_STAMINA) :=
  ⟨⟨by decide, by decide⟩,
   c8_energy_stamina_invariant oracle0 true tankC8
     (regrowFood oracle0 (reconcile tankC8))
     ⟨by decide, by decide⟩
     (by
       intro p hp
       have hp1 : p = (0, Obj.germ gC8) := by simpa [tankC8, c8Objs] using hp
       subst hp1
       intro ha
       exact ⟨by decide, by decide, by decide, by decide⟩)
     (by rfl) 0 gC8 (by decide) (by decide)⟩
